import Mathlib

/-!
# line-sticker: a verification development

A shallow embedding of `main.go` of the LINE sticker downloader:

* `LoopAPNG`, the in-place patch of the `acTL` chunk of an APNG file, over an
  explicit model of the `os.File` operations it uses (`Read`, `Seek`, `Write`);
* `normalizeFileName` and the choice of the output folder name;
* `Download`, over the outcomes of the three system calls it makes;
* the passes of `main` over the sticker list, as state passing on a `World`
  that records the console, the actions performed and the output folder with
  the content of its files; `main` runs `LoopAPNG` on the bytes it has
  downloaded, and a call that does not return leaves the run stuck.
-/

namespace LineSticker

/-! ## Files -/

/-- A byte of a file. -/
abbrev Byte := UInt8

/-- The errors `LoopAPNG` can return: `io.EOF`, `InvalidPNGError`, the
`EINVAL` that `Seek` reports for a negative resulting offset, and `os` for any
other failure of a system call (the model of `LoopAPNG` below is of a file
that can be opened, read and written, and never produces it). -/
inductive Err where
  | eof
  | invalidPNG
  | einval
  | os
  deriving DecidableEq, Repr

/-- An open `os.File`: its content and the current offset. Offsets are never
negative (`Seek` refuses them); the `int64` bound on offsets is not modelled. -/
structure File where
  data : List Byte
  pos : Nat
  deriving DecidableEq, Repr

/-- The call `file.Read(buf)` on a regular file. It delivers the
`min buf.length (data.length - pos)` bytes at the offset into the front of
`buf`, keeps the rest of `buf` as it was and advances the offset; when the
buffer is not empty and no byte is left it fails with `io.EOF`. The result is
the file and the buffer after the call. -/
def File.read (f : File) (buf : List Byte) : Except Err (File × List Byte) :=
  let got := (f.data.drop f.pos).take buf.length
  if got.length = 0 ∧ buf.length ≠ 0 then .error .eof
  else .ok ({ f with pos := f.pos + got.length }, got ++ buf.drop got.length)

/-- The call `file.Seek(off, 1)`: move the offset by `off` relative to the
current one; a negative resulting offset is refused. -/
def File.seekCur (f : File) (off : Int) : Except Err File :=
  if (f.pos : Int) + off < 0 then .error .einval
  else .ok { f with pos := ((f.pos : Int) + off).toNat }

/-- The call `file.Write(b)`: store `b` at the offset, overwriting what is
there and extending the file as needed; a gap between the old end of the file
and the offset reads as zero bytes. -/
def File.write (f : File) (b : List Byte) : File :=
  let padded := f.data ++ List.replicate (f.pos - f.data.length) 0
  { data := padded.take f.pos ++ b ++ padded.drop (f.pos + b.length),
    pos := f.pos + b.length }

/-! ## LoopAPNG -/

/-- The PNG signature `89 50 4E 47 0D 0A 1A 0A`. -/
def pngSignature : List Byte := [0x89, 0x50, 0x4E, 0x47, 0x0D, 0x0A, 0x1A, 0x0A]

/-- The bytes of `"acTL"`. -/
def acTL : List Byte := [0x61, 0x63, 0x54, 0x4C]

/-- The unsigned big-endian value of a buffer. -/
def beValue (w : List Byte) : Nat :=
  w.foldl (fun acc b => acc * 256 + b.toNat) 0

/-- The value of a 32-bit pattern as an `int32`. -/
def toInt32 (u : Nat) : Int :=
  if u % 2 ^ 32 < 2 ^ 31 then ((u % 2 ^ 32 : Nat) : Int)
  else ((u % 2 ^ 32 : Nat) : Int) - 2 ^ 32

/-- Reduce an integer to the `int32` range (wrapping arithmetic). -/
def wrapInt32 (i : Int) : Int :=
  toInt32 (i % 2 ^ 32).toNat

/-- What `binary.Read(buf, binary.BigEndian, &dataSize)` stores in the `int32`
variable `dataSize` from the 4-byte buffer `word`. -/
def readDataSize (word : List Byte) : Int :=
  toInt32 (beValue word)

/-- The argument of the skipping `Seek`: `int64(dataSize+4)`, the sum taken in
`int32`. -/
def skipDistance (word : List Byte) : Int :=
  wrapInt32 (readDataSize word + 4)

/-- What a call of `LoopAPNG` leaves behind: the returned error (`none` for
`nil`) and the content of the file. -/
structure Outcome where
  err : Option Err
  data : List Byte
  deriving DecidableEq, Repr

/-- The variables that live across the iterations of the scanning loop: the
file and the two buffers `word` and `chunkType`, which are allocated once
before the loop. -/
structure Scan where
  file : File
  word : List Byte
  chunkType : List Byte
  deriving DecidableEq, Repr

/-- One iteration of the `for` loop of `LoopAPNG`: either the function returns
(`Sum.inl`) or the loop goes round again (`Sum.inr`). -/
def scanStep (s : Scan) : Outcome ⊕ Scan :=
  match s.file.read s.word with
  | .error e => .inl ⟨some e, s.file.data⟩
  | .ok (f1, word) =>
    match f1.read s.chunkType with
    | .error e => .inl ⟨some e, f1.data⟩
    | .ok (f2, chunkType) =>
      if chunkType = acTL then
        match f2.seekCur 4 with
        | .error e => .inl ⟨some e, f2.data⟩
        | .ok f3 => .inl ⟨none, (f3.write [0, 0, 0, 0]).data⟩
      else
        match f2.seekCur (skipDistance word) with
        | .error e => .inl ⟨some e, f2.data⟩
        | .ok f3 => .inr ⟨f3, word, chunkType⟩

/-- The `for` loop of `LoopAPNG`, run for at most `fuel` iterations; `none`
when the loop has not returned by then. -/
def scanLoop : Nat → Scan → Option Outcome
  | 0, _ => none
  | fuel + 1, s =>
    match scanStep s with
    | .inl o => some o
    | .inr s' => scanLoop fuel s'

/-- The function `LoopAPNG` on a file that could be opened, with content
`data`; `fuel` bounds the number of iterations of its loop. -/
def LoopAPNG (fuel : Nat) (data : List Byte) : Option Outcome :=
  match (File.mk data 0).read (List.replicate 8 0) with
  | .error e => some ⟨some e, data⟩
  | .ok (f, head) =>
    if head ≠ pngSignature then some ⟨some .invalidPNG, f.data⟩
    else scanLoop fuel ⟨f, List.replicate 4 0, List.replicate 4 0⟩

/-! ## Chunk containers -/

/-- A chunk of a chunk container: its type tag, its payload and its checksum.
The length field of the encoding is derived from the payload. -/
structure Chunk where
  type : List Byte
  payload : List Byte
  crc : List Byte
  deriving DecidableEq, Repr

/-- A well-formed chunk: a 4-byte type tag, a payload whose length fits the
4-byte length field, and a 4-byte checksum. -/
def Chunk.WF (c : Chunk) : Prop :=
  c.type.length = 4 ∧ c.payload.length < 2 ^ 32 ∧ c.crc.length = 4

/-- The 4-byte big-endian encoding of a number below `2 ^ 32`. -/
def be32 (n : Nat) : List Byte :=
  [UInt8.ofNat (n / 2 ^ 24), UInt8.ofNat (n / 2 ^ 16), UInt8.ofNat (n / 2 ^ 8), UInt8.ofNat n]

/-- The bytes of a chunk: length, type tag, payload, checksum. -/
def Chunk.encode (c : Chunk) : List Byte :=
  be32 c.payload.length ++ c.type ++ c.payload ++ c.crc

/-- The bytes of a sequence of chunks. -/
def encodeChunks : List Chunk → List Byte
  | [] => []
  | c :: cs => c.encode ++ encodeChunks cs

/-- A chunk container: the signature followed by the chunks. -/
def encodeContainer (cs : List Chunk) : List Byte :=
  pngSignature ++ encodeChunks cs

/-- The offset, counted from the start of the chunk sequence, at which the
payload of the first `acTL` chunk starts (`0` when there is none). -/
def firstACTLPayload : List Chunk → Nat
  | [] => 0
  | c :: cs => if c.type = acTL then 8 else c.encode.length + firstACTLPayload cs

/-- The offset in the container of the repeat-count field of the first `acTL`
chunk: 4 bytes into its payload. -/
def repeatCountOffset (cs : List Chunk) : Nat :=
  8 + firstACTLPayload cs + 4

/-- What writing four zero bytes 4 bytes into `tail` gives. -/
def patchTail (tail : List Byte) : List Byte :=
  (tail ++ List.replicate (4 - tail.length) 0).take 4 ++ [0, 0, 0, 0] ++ tail.drop 8

/-- A chunk the loop steps over: well formed, not tagged `acTL`, and with a
declared length to which `int32` arithmetic can add 4. -/
def Chunk.Skipped (c : Chunk) : Prop :=
  c.WF ∧ c.type ≠ acTL ∧ c.payload.length + 4 < 2 ^ 31

/-- Whether a chunk is not tagged `acTL`. -/
def Chunk.notACTL (c : Chunk) : Bool := decide (c.type ≠ acTL)

/-- The chunks in front of the first `acTL` chunk. -/
def beforeACTL (cs : List Chunk) : List Chunk := cs.takeWhile Chunk.notACTL

/-- A payload of `2 ^ 31 - 4` zero bytes. -/
def hugePayload : List Byte := List.replicate (2 ^ 31 - 4) 0

/-- A container whose first chunk, tagged `IDAT`, declares `2 ^ 31 - 4` bytes
and is followed by an `acTL` chunk with an 8-byte payload. -/
def hugeChunks : List Chunk :=
  [⟨[0x49, 0x44, 0x41, 0x54], hugePayload, [0, 0, 0, 0]⟩,
   ⟨acTL, [0, 0, 0, 1, 0, 0, 0, 1], [0, 0, 0, 0]⟩]

instance (c : Chunk) : Decidable c.WF := by
  unfold Chunk.WF
  infer_instance

/-- A small container: a 2-byte chunk tagged `IHDR`-like, then an `acTL` chunk
with frame count 3 and repeat count 5, then an empty `IEND` chunk. -/
def sampleChunks : List Chunk :=
  [⟨[0x49, 0x48, 0x44, 0x52], [1, 2], [9, 9, 9, 9]⟩,
   ⟨acTL, [0, 0, 0, 3, 0, 0, 0, 5], [7, 7, 7, 7]⟩,
   ⟨[0x49, 0x45, 0x4E, 0x44], [], [8, 8, 8, 8]⟩]

/-- A file cut off inside a type field: the signature, a complete empty chunk
tagged `fcTL`, the length field `00 00 00 00` of a second chunk and the single
byte `a` of its type field. No chunk of it is tagged `acTL`. -/
def truncatedFile : List Byte :=
  encodeContainer [⟨[0x66, 0x63, 0x54, 0x4C], [], [0, 0, 0, 0]⟩] ++ [0, 0, 0, 0] ++ [0x61]

/-- A file whose only chunk header declares the length `FF FF FF F4`, which
is `-12` as an `int32`, with the tag `IDAT`. -/
def loopingFile : List Byte :=
  pngSignature ++ [0xFF, 0xFF, 0xFF, 0xF4] ++ [0x49, 0x44, 0x41, 0x54]

/-! ## Folder names -/

/-- The array `InvalidFileNameChars`. Each of its 41 entries is a string of one
character: the double quote, `<`, `>`, `|`, the 32 control characters `U+0000`
to `U+001F` (the source writes seven of them as `\a \b \t \n \v \f \r`),
`:`, `*`, `?`, the backslash and `/`. -/
def InvalidFileNameChars : List Char :=
  [Char.ofNat 0x22, Char.ofNat 0x3C, Char.ofNat 0x3E, Char.ofNat 0x7C,
   Char.ofNat 0x00, Char.ofNat 0x01, Char.ofNat 0x02, Char.ofNat 0x03,
   Char.ofNat 0x04, Char.ofNat 0x05, Char.ofNat 0x06, Char.ofNat 0x07,
   Char.ofNat 0x08, Char.ofNat 0x09, Char.ofNat 0x0A, Char.ofNat 0x0B,
   Char.ofNat 0x0C, Char.ofNat 0x0D, Char.ofNat 0x0E, Char.ofNat 0x0F,
   Char.ofNat 0x10, Char.ofNat 0x11, Char.ofNat 0x12, Char.ofNat 0x13,
   Char.ofNat 0x14, Char.ofNat 0x15, Char.ofNat 0x16, Char.ofNat 0x17,
   Char.ofNat 0x18, Char.ofNat 0x19, Char.ofNat 0x1A, Char.ofNat 0x1B,
   Char.ofNat 0x1C, Char.ofNat 0x1D, Char.ofNat 0x1E, Char.ofNat 0x1F,
   Char.ofNat 0x3A, Char.ofNat 0x2A, Char.ofNat 0x3F, Char.ofNat 0x5C,
   Char.ofNat 0x2F]

/-- The call `strings.Replace(s, old, new, -1)` for a one-character `old`:
every occurrence of `old` gives way to `new`. -/
def stringsReplace : List Char → Char → List Char → List Char
  | [], _, _ => []
  | c :: cs, old, new =>
    if c = old then new ++ stringsReplace cs old new else c :: stringsReplace cs old new

/-- The predicate `unicode.IsSpace`: the code points with the property
`White_Space`. -/
def isSpace (c : Char) : Bool :=
  let n := c.toNat
  (9 ≤ n && n ≤ 13) || n == 0x20 || n == 0x85 || n == 0xA0 || n == 0x1680 ||
    (0x2000 ≤ n && n ≤ 0x200A) || n == 0x2028 || n == 0x2029 || n == 0x202F ||
    n == 0x205F || n == 0x3000

/-- The call `strings.TrimSpace(s)`: drop the leading and the trailing white
space. -/
def trimSpace (s : List Char) : List Char :=
  ((s.dropWhile isSpace).reverse.dropWhile isSpace).reverse

/-- The function `normalizeFileName`: the loop over `InvalidFileNameChars`
replaces one character after the other by `_`, then the result is trimmed. -/
def normalizeFileName (str : String) : String :=
  ⟨trimSpace (InvalidFileNameChars.foldl (fun s char => stringsReplace s char ['_']) str.data)⟩

/-- The folder name chosen in `main` from the flag `-f` (`override`), the
package id and the English title `Title["en"]`; the id is formatted by `%d`. -/
def folderName (override : String) (packageId : Int) (title : String) : String :=
  if override ≠ "" then override
  else normalizeFileName (toString packageId ++ " - " ++ title)

/-- The code points of white space: those with the Unicode property
`White_Space`. -/
def whiteSpace : List Nat :=
  [0x09, 0x0A, 0x0B, 0x0C, 0x0D, 0x20, 0x85, 0xA0, 0x1680, 0x2000, 0x2001, 0x2002, 0x2003,
   0x2004, 0x2005, 0x2006, 0x2007, 0x2008, 0x2009, 0x200A, 0x2028, 0x2029, 0x202F, 0x205F,
   0x3000]

/-- The removal of leading and trailing white space in the words of the
specification: the longest run of white space at the front is dropped, then
the longest run of white space at the back. -/
def specTrim (s : List Char) : List Char :=
  List.rdropWhile isSpace (List.dropWhile isSpace s)

/-- The string `decimal(n) + " - " + t` in which every character of
`InvalidFileNameChars` is replaced by `_`. -/
def specReplaced (n : Int) (t : String) : List Char :=
  (toString n ++ " - " ++ t).data.map (fun c => if c ∈ InvalidFileNameChars then '_' else c)

/-- The folder name in the words of the specification: in
`decimal(n) + " - " + t` every character of `InvalidFileNameChars` is replaced
by `_`, then leading and trailing white space is removed. -/
def specFolderName (n : Int) (t : String) : String :=
  ⟨specTrim (specReplaced n t)⟩

/-! ## Download -/

/-- What `HttpClient.Get(url)` returns: a transport error, or a response with
its status code and body. -/
inductive GetResult where
  | transportError
  | response (status : Nat) (body : List Byte)
  deriving DecidableEq, Repr

/-- The outcomes of the three calls `Download` makes: whether `os.Create`
succeeds, what `HttpClient.Get` returns, and whether `io.Copy` succeeds (when
it fails, after how many bytes). -/
structure DownloadEnv where
  createOk : Bool
  get : GetResult
  copyOk : Bool
  copied : Nat
  deriving DecidableEq, Repr

/-- The error `Download` returns, by the call it comes from. -/
inductive DownloadError where
  | create
  | get
  | copy
  deriving DecidableEq, Repr

/-- The result of `Download`: the returned error (`none` for `nil`) and the
content of the destination file when the call has created or truncated it. -/
structure DownloadResult where
  err : Option DownloadError
  file : Option (List Byte)
  deriving DecidableEq, Repr

/-- The function `Download`: create the file, send the request, copy the body.
The status code of the response is not looked at. -/
def Download (env : DownloadEnv) : DownloadResult :=
  if env.createOk = false then ⟨some .create, none⟩
  else
    match env.get with
    | .transportError => ⟨some .get, some []⟩
    | .response _ body =>
      if env.copyOk = false then ⟨some .copy, some (body.take env.copied)⟩
      else ⟨none, some body⟩

/-! ## The orchestrator -/

/-- The struct `Sticker`. -/
structure Sticker where
  Id : Int
  Width : Int
  Height : Int
  deriving DecidableEq, Repr

/-- The fields of the struct `StickerPackage` that `main` reads; `Title` is
the map, as a list of entries. -/
structure StickerPackage where
  PackageId : Int
  Title : List (String × String)
  Stickers : List Sticker
  HasAnimation : Bool
  deriving DecidableEq, Repr

/-- The fields of the struct `AppArgs` that `main` reads. -/
structure AppArgs where
  PackageId : Int
  PNG : Bool
  APNG : Bool
  GIF : Bool
  FolderName : String
  deriving DecidableEq, Repr

/-- The two asset kinds that are downloaded. -/
inductive Kind where
  | static
  | animated
  deriving DecidableEq, Repr

/-- The three directories of the output folder. -/
inductive Dir where
  | PNG
  | APNG
  | GIF
  deriving DecidableEq, Repr

/-- The directory an asset kind is downloaded to. -/
def Kind.dir : Kind → Dir
  | .static => .PNG
  | .animated => .APNG

/-- The calls by which `main` acts on the network, the file system and the
converter. -/
inductive Action where
  | mkdirAll (d : Dir)
  | download (k : Kind) (id : Int)
  | loopAPNG (id : Int)
  | apng2gif (id : Int)
  | removeAll (d : Dir)
  | createIndex
  | executeTemplate (png apng gif : Bool)
  deriving DecidableEq, Repr

/-- A line on standard error: the error of the call that failed. -/
inductive Failure where
  | download (k : Kind) (id : Int) (e : DownloadError)
  | loopAPNG (id : Int) (e : Err)
  | apng2gif (id : Int)
  deriving DecidableEq, Repr

/-- The outcome of a run of the converter: whether it exits with status 0 and
the content of the output file when it has written one. -/
structure ConvertEnv where
  ok : Bool
  written : Option (List Byte)
  deriving DecidableEq, Repr

/-- The outcomes of the calls that leave the program, chosen by the
environment: the fetch of the metadata, the system calls on directories, the
three calls of each `Download`, the runs of the converter. The function
`LoopAPNG` is not among them: it is run on the bytes of the file. -/
structure Env where
  getJson : Option StickerPackage
  mkdirOk : Dir → Bool
  download : Kind → Int → DownloadEnv
  apng2gif : Int → ConvertEnv
  removeAllOk : Bool
  createIndexOk : Bool

/-- The output folder: the directories present, the files present with their
content (the key `(d, id)` is the file `id.png` of directory `d`, `id.gif` in
`GIF`), and whether `index.html` is present. -/
structure Folder where
  dirs : List Dir
  files : List ((Dir × Int) × List Byte)
  index : Bool
  deriving DecidableEq, Repr

/-- The state of a run: what has been written to standard output and to
standard error, the actions performed, the output folder, whether the run has
ended in a panic (`check`), and whether it is stuck in a call of `LoopAPNG`
that has not returned. -/
structure World where
  stdout : List String
  stderr : List Failure
  actions : List Action
  folder : Folder
  panicked : Bool
  stuck : Bool
  deriving DecidableEq, Repr

/-- The state at the start of a run. -/
def World.start (folder : Folder) : World := ⟨[], [], [], folder, false, false⟩

/-- Write with `fmt.Print` / `fmt.Printf`. -/
def World.print (w : World) (s : String) : World := { w with stdout := w.stdout ++ [s] }

/-- Write with `fmt.Println`. -/
def World.println (w : World) (s : String) : World := w.print (s ++ "\n")

/-- Write an error with `fmt.Fprintln(os.Stderr, err)`. -/
def World.eprintln (w : World) (f : Failure) : World := { w with stderr := w.stderr ++ [f] }

/-- Record an action. -/
def World.act (w : World) (a : Action) : World := { w with actions := w.actions ++ [a] }

/-- Give a file its content: an existing file is replaced in place, a new one
is added. -/
def setFile : List ((Dir × Int) × List Byte) → Dir × Int → List Byte →
    List ((Dir × Int) × List Byte)
  | [], k, c => [(k, c)]
  | (k2, c2) :: fs, k, c => if k2 = k then (k, c) :: fs else (k2, c2) :: setFile fs k c

/-- The content of a file, when it is present. -/
def getFile : List ((Dir × Int) × List Byte) → Dir × Int → Option (List Byte)
  | [], _ => none
  | (k2, c2) :: fs, k => if k2 = k then some c2 else getFile fs k

/-- Create or overwrite a file of the output folder. -/
def World.writeFile (w : World) (k : Dir × Int) (c : List Byte) : World :=
  { w with folder := { w.folder with files := setFile w.folder.files k c } }

/-- The files present in a directory: their ids and contents. -/
def World.dirContent (w : World) (d : Dir) : List (Int × List Byte) :=
  (w.folder.files.filter (fun x => x.1.1 = d)).map (fun x => (x.1.2, x.2))

/-- The call `os.MkdirAll(dir, 0755)`, whose error `main` ignores. -/
def World.mkdirAll (env : Env) (w : World) (d : Dir) : World :=
  let w := w.act (.mkdirAll d)
  if env.mkdirOk d = true ∧ d ∉ w.folder.dirs then
    { w with folder := { w.folder with dirs := w.folder.dirs ++ [d] } }
  else w

/-- The call `Download(url, filePath)` for a sticker: when `os.Create` has
succeeded the destination file holds what `Download` has copied. -/
def World.download (env : Env) (w : World) (k : Kind) (id : Int) :
    World × Option DownloadError :=
  let r := Download (env.download k id)
  let w := w.act (.download k id)
  match r.file with
  | some c => (w.writeFile (k.dir, id) c, r.err)
  | none => (w, r.err)

/-- The body of the loop over the stickers under `if appArgs.PNG`. -/
def staticItem (env : Env) (w : World) (sticker : Sticker) : World :=
  let w := w.print ("[PNG] " ++ toString sticker.Id ++ " ... ")
  match w.download env .static sticker.Id with
  | (w, some e) => (w.println "Error").eprintln (.download .static sticker.Id e)
  | (w, none) => w.println "Done"

/-- The block under `if appArgs.PNG`. -/
def staticPass (env : Env) (pkg : StickerPackage) (w : World) : World :=
  pkg.Stickers.foldl (staticItem env) (World.mkdirAll env w .PNG)

/-- The call `LoopAPNG(filePath)` of `main` on a file of the directory `APNG`,
with at most `fuel` iterations of its loop: `none` when the call has not
returned by then, otherwise the state in which the file holds what the call
has left, and the returned error. A file that is not there cannot be opened. -/
def World.loopAPNG (fuel : Nat) (w : World) (id : Int) : Option (World × Option Err) :=
  match getFile w.folder.files (.APNG, id) with
  | none => some (w, some .os)
  | some content =>
    match LoopAPNG fuel content with
    | none => none
    | some o => some (w.writeFile (.APNG, id) o.data, o.err)

/-- The body of the loop over the stickers under
`if appArgs.APNG || appArgs.GIF`: an `io.EOF` of `LoopAPNG` is reported as
`Done`. When the call of `LoopAPNG` does not return the run is stuck there,
and a stuck run does nothing more. -/
def animatedItem (fuel : Nat) (env : Env) (w : World) (sticker : Sticker) : World :=
  if w.stuck = true then w
  else
    let w := w.print ("[APNG] " ++ toString sticker.Id ++ " ... ")
    match w.download env .animated sticker.Id with
    | (w, some e) => (w.println "Error").eprintln (.download .animated sticker.Id e)
    | (w, none) =>
      let w := w.act (.loopAPNG sticker.Id)
      match w.loopAPNG fuel sticker.Id with
      | none => { w with stuck := true }
      | some (w, some e) =>
        if e ≠ Err.eof then (w.println "Error").eprintln (.loopAPNG sticker.Id e)
        else w.println "Done"
      | some (w, none) => w.println "Done"

/-- The block under `if appArgs.APNG || appArgs.GIF`. -/
def animatedPass (fuel : Nat) (env : Env) (pkg : StickerPackage) (w : World) : World :=
  pkg.Stickers.foldl (animatedItem fuel env) (World.mkdirAll env w .APNG)

/-- The body of the loop over the stickers under `if appArgs.GIF`. -/
def gifItem (env : Env) (w : World) (sticker : Sticker) : World :=
  let w := w.print ("[GIF] " ++ toString sticker.Id ++ " ... ")
  let w := w.act (.apng2gif sticker.Id)
  let r := env.apng2gif sticker.Id
  let w := match r.written with
    | some c => w.writeFile (.GIF, sticker.Id) c
    | none => w
  if r.ok = false then (w.println "Error").eprintln (.apng2gif sticker.Id)
  else w.println "Done"

/-- The block under `if appArgs.GIF`. -/
def gifPass (env : Env) (pkg : StickerPackage) (w : World) : World :=
  pkg.Stickers.foldl (gifItem env) (World.mkdirAll env w .GIF)

/-- The block under `if appArgs.GIF && !appArgs.APNG`: remove the directory
`APNG`; a failure of `os.RemoveAll` ends the run in a panic. -/
def cleanup (env : Env) (w : World) : World :=
  let w := w.print "Removing APNG ... "
  let w := w.act (.removeAll .APNG)
  if env.removeAllOk = false then { w with panicked := true }
  else
    let w := { w with folder := { w.folder with
      dirs := w.folder.dirs.filter (fun d => d ≠ Dir.APNG),
      files := w.folder.files.filter (fun x => x.1.1 ≠ Dir.APNG) } }
    w.println "Done"

/-- The end of `main`: create `index.html` and execute the template on
`appArgs`. The constant template parses; a failure of `os.Create` ends the run
in a panic. -/
def generateIndex (env : Env) (args : AppArgs) (w : World) : World :=
  let w := w.print "Generating index.html ... "
  let w := w.act .createIndex
  if env.createIndexOk = false then { w with panicked := true }
  else
    let w := { w with folder := { w.folder with index := true } }
    let w := w.act (.executeTemplate args.PNG args.APNG args.GIF)
    w.println "Done"

/-- The part of `init` that reads the flags and looks for the converter:
without `apng2gif` on the path the flag `GIF` is switched off. -/
def init (flags : AppArgs) (lookPathOk : Bool) : AppArgs :=
  if flags.GIF = true ∧ lookPathOk = false then { flags with GIF := false } else flags

/-- The flags after `main` has combined them with `HasAnimation`. -/
def effectiveArgs (appArgs : AppArgs) (pkg : StickerPackage) : AppArgs :=
  { appArgs with APNG := appArgs.APNG && pkg.HasAnimation,
                 GIF := appArgs.GIF && pkg.HasAnimation }

/-- The index `Title["en"]` of the map: the empty string for a missing key. -/
def StickerPackage.titleEn (pkg : StickerPackage) : String :=
  (pkg.Title.lookup "en").getD ""

/-- The function `main` after a successful fetch of the metadata; `fuel`
bounds the iterations of the loop of each call of `LoopAPNG`. -/
def mainWith (fuel : Nat) (env : Env) (appArgs : AppArgs) (pkg : StickerPackage)
    (folder : Folder) : World :=
  let args := effectiveArgs appArgs pkg
  let w := (World.start folder).println (folderName args.FolderName pkg.PackageId pkg.titleEn)
  let w := if args.PNG = true then staticPass env pkg w else w
  let w := if args.APNG = true ∨ args.GIF = true then animatedPass fuel env pkg w else w
  if w.stuck = true then w
  else
    let w := if args.GIF = true then gifPass env pkg w else w
    let w := if args.GIF = true ∧ args.APNG = false then cleanup env w else w
    if w.panicked = true then w else generateIndex env args w

/-- The function `main`: a failure of `getJson` ends the run in a panic. -/
def main (fuel : Nat) (env : Env) (appArgs : AppArgs) (folder : Folder) : World :=
  match env.getJson with
  | none => { World.start folder with panicked := true }
  | some pkg => mainWith fuel env appArgs pkg folder

/-- The actions of the loop body for the animated asset of a sticker: the
download, and the patch when the download has returned `nil`. -/
def animatedSteps (env : Env) (sticker : Sticker) : List Action :=
  if (Download (env.download .animated sticker.Id)).err = none then
    [.download .animated sticker.Id, .loopAPNG sticker.Id]
  else [.download .animated sticker.Id]

/-- The actions of the static pass: one download for each sticker, in list
order. -/
def staticActions (pkg : StickerPackage) : List Action :=
  .mkdirAll .PNG :: pkg.Stickers.map (fun s => Action.download .static s.Id)

/-- The actions of the animated pass: the steps of each sticker, in list
order. -/
def animatedActions (env : Env) (pkg : StickerPackage) : List Action :=
  .mkdirAll .APNG :: pkg.Stickers.flatMap (animatedSteps env)

/-- The actions of the conversion pass: one run of the converter for each
sticker, in list order. -/
def gifActions (pkg : StickerPackage) : List Action :=
  .mkdirAll .GIF :: pkg.Stickers.map (fun s => Action.apng2gif s.Id)

/-- The actions of the index generation. -/
def indexActions (env : Env) (args : AppArgs) : List Action :=
  if env.createIndexOk = false then [.createIndex]
  else [.createIndex, .executeTemplate args.PNG args.APNG args.GIF]

/-- The actions of a run that has fetched the metadata and in which every call
of `LoopAPNG` returns: for each enabled kind the steps of every sticker, then
the removal of the directory `APNG` when conversion is on and retention is
off, then the index generation, which is left out only when that removal has
failed. -/
def runActions (env : Env) (args : AppArgs) (pkg : StickerPackage) : List Action :=
  (if args.PNG = true then staticActions pkg else []) ++
  (if args.APNG = true ∨ args.GIF = true then animatedActions env pkg else []) ++
  (if args.GIF = true then gifActions pkg else []) ++
  (if args.GIF = true ∧ args.APNG = false then
    Action.removeAll .APNG :: (if env.removeAllOk = false then [] else indexActions env args)
   else indexActions env args)

/-- Whether the call of `LoopAPNG` on the animated asset of a sticker returns
within `fuel` iterations of its loop; there is no call when the download has
failed. -/
def patchReturns (fuel : Nat) (env : Env) (sticker : Sticker) : Bool :=
  match Download (env.download .animated sticker.Id) with
  | ⟨none, some body⟩ => (LoopAPNG fuel body).isSome
  | _ => true

/-- Whether a download fails, read off the outcomes of its three calls:
`os.Create` fails, or the request fails in transport, or the copy fails. -/
def DownloadEnv.fails (e : DownloadEnv) : Bool :=
  e.createOk = false || e.get = .transportError || e.copyOk = false

/-- What a download whose file has been created leaves in it: nothing when the
request has failed in transport, the body of the response when the copy has
succeeded, the bytes copied so far when it has failed. -/
def DownloadEnv.written (e : DownloadEnv) : List Byte :=
  match e.get with
  | .transportError => []
  | .response _ body => if e.copyOk = false then body.take e.copied else body

/-- What the static pass prints for a sticker. -/
def staticReport (env : Env) (sticker : Sticker) : List String :=
  ["[PNG] " ++ toString sticker.Id ++ " ... ",
   if (env.download .static sticker.Id).fails = true then "Error\n" else "Done\n"]

/-- The package of the end-to-end scenarios: id 42, English title `Test`,
stickers 1 and 2. -/
def samplePackage (hasAnimation : Bool) : StickerPackage :=
  ⟨42, [("en", "Test")], [⟨1, 320, 240⟩, ⟨2, 320, 240⟩], hasAnimation⟩

/-- An environment in which every download of sticker 1 fails in transport
and the converter fails on sticker 1; every other call succeeds, and the body
of every response is the container `sampleChunks`. -/
def sampleEnv (hasAnimation : Bool) : Env where
  getJson := some (samplePackage hasAnimation)
  mkdirOk := fun _ => true
  download := fun _ id =>
    if id = 1 then ⟨true, .transportError, true, 0⟩
    else ⟨true, .response 200 (encodeContainer sampleChunks), true, 0⟩
  apng2gif := fun id => if id = 1 then ⟨false, none⟩ else ⟨true, some [0x47, 0x49, 0x46]⟩
  removeAllOk := true
  createIndexOk := true

/-- The environment `sampleEnv` with animation, in which `os.RemoveAll`
fails. -/
def removalFailsEnv : Env := { sampleEnv true with removeAllOk := false }

/-- The environment `sampleEnv` with animation, in which the animated asset of
sticker 1 is downloaded with the body `loopingFile`. -/
def loopingEnv : Env :=
  { sampleEnv true with
    download := fun k id =>
      if k = .animated ∧ id = 1 then ⟨true, .response 200 loopingFile, true, 0⟩
      else (sampleEnv true).download k id }

/-- An output folder with nothing in it. -/
def emptyFolder : Folder := ⟨[], [], false⟩

/-- No length field of the file makes the loop go backwards: at every offset
the 4 bytes found there, read as a declared length, give a skip distance of at
least `-4` (declared lengths from `0` to `2 ^ 31 - 5` give one of at least
`4`). -/
def ForwardSkips (data : List Byte) : Prop :=
  ∀ p, p + 4 ≤ data.length → -4 ≤ skipDistance ((data.drop p).take 4)

/-! ## Lemmas on the file operations -/

theorem File.read_at (f : File) (pre w rest buf : List Byte)
    (hd : f.data = pre ++ (w ++ rest)) (hp : f.pos = pre.length)
    (hw : w.length = buf.length) :
    f.read buf = .ok (⟨f.data, pre.length + w.length⟩, w) := by
  unfold File.read
  simp only [hd, hp, List.drop_left, ← hw, List.take_left]
  simp [hw]

theorem File.read_eof (f : File) (buf : List Byte)
    (hp : f.data.length ≤ f.pos) (hb : buf.length ≠ 0) :
    f.read buf = .error .eof := by
  unfold File.read
  simp [List.drop_eq_nil_of_le hp, hb]

theorem File.seekCur_nonneg (f : File) (n : Nat) :
    f.seekCur (n : Int) = .ok ⟨f.data, f.pos + n⟩ := by
  unfold File.seekCur
  have h : ¬ ((f.pos : Int) + (n : Int) < 0) := by omega
  simp only [h, if_false]
  congr 2

theorem beValue_four (a b c d : Byte) :
    beValue [a, b, c, d] = ((a.toNat * 256 + b.toNat) * 256 + c.toNat) * 256 + d.toNat := by
  simp [beValue]

theorem toNat_ofNat_byte (n : Nat) : (UInt8.ofNat n).toNat = n % 256 := by
  simp [UInt8.ofNat, UInt8.toNat, Fin.ofNat]

theorem beValue_be32 (n : Nat) (h : n < 2 ^ 32) : beValue (be32 n) = n := by
  simp only [be32, beValue_four, toNat_ofNat_byte]
  omega

theorem be32_length (n : Nat) : (be32 n).length = 4 := rfl

theorem skipDistance_small (w : List Byte) (h : beValue w + 4 < 2 ^ 31) :
    skipDistance w = ((beValue w + 4 : Nat) : Int) := by
  have h1 : readDataSize w = (beValue w : Int) := by
    unfold readDataSize toInt32
    split_ifs <;> omega
  have h2 : (((beValue w : Nat) : Int) + 4) % 2 ^ 32 = ((beValue w + 4 : Nat) : Int) := by
    omega
  unfold skipDistance wrapInt32
  rw [h1, h2, Int.toNat_ofNat]
  unfold toInt32
  split_ifs <;> omega

theorem drop_eight_padded (tail : List Byte) :
    (tail ++ List.replicate (4 - tail.length) (0 : Byte)).drop 8 = tail.drop 8 := by
  by_cases h : 8 ≤ tail.length
  · have h0 : 4 - tail.length = 0 := by omega
    simp [h0]
  · have h1 : (tail ++ List.replicate (4 - tail.length) (0 : Byte)).length ≤ 8 := by
      rw [List.length_append, List.length_replicate]; omega
    rw [List.drop_eq_nil_of_le h1, List.drop_eq_nil_of_le (by omega)]

theorem File.write_at (f : File) (pre tail : List Byte)
    (hd : f.data = pre ++ tail) (hp : f.pos = pre.length + 4) :
    (f.write [0, 0, 0, 0]).data = pre ++ patchTail tail := by
  unfold File.write patchTail
  have h1 : pre.length + 4 - (pre ++ tail).length = 4 - tail.length := by
    simp only [List.length_append]; omega
  simp only [hd, hp, h1, List.append_assoc, List.length_cons, List.length_nil]
  rw [List.take_append_eq_append_take, List.drop_append_eq_append_drop]
  have h2 : pre.length + 4 - pre.length = 4 := by omega
  have h3 : pre.length + 4 + (0 + 1 + 1 + 1 + 1) - pre.length = 8 := by omega
  have h4 : List.drop (pre.length + 4 + (0 + 1 + 1 + 1 + 1)) pre = [] :=
    List.drop_eq_nil_of_le (by omega)
  have h5 : List.take (pre.length + 4) pre = pre := List.take_of_length_le (by omega)
  rw [h2, h3, h4, h5, drop_eight_padded]
  simp

theorem scanStep_actl (s : Scan) (pre w rest : List Byte)
    (hd : s.file.data = pre ++ (w ++ (acTL ++ rest))) (hp : s.file.pos = pre.length)
    (hw : w.length = 4) (hbw : s.word.length = 4) (hbt : s.chunkType.length = 4) :
    scanStep s = .inl ⟨none, pre ++ (w ++ (acTL ++ patchTail rest))⟩ := by
  have r1 := File.read_at s.file pre w (acTL ++ rest) s.word hd hp (by omega)
  have r2 := File.read_at ⟨s.file.data, pre.length + w.length⟩ (pre ++ w) acTL rest s.chunkType
    (by simp [hd]) (by simp) (by simp [acTL, hbt])
  have r3 := File.write_at ⟨s.file.data, (pre ++ w).length + acTL.length + 4⟩
    (pre ++ (w ++ acTL)) rest (by simp [hd]) (by simp [Nat.add_assoc])
  unfold scanStep
  rw [r1]
  simp only [r2, if_true]
  have r4 := File.seekCur_nonneg ⟨s.file.data, (pre ++ w).length + acTL.length⟩ 4
  simp only [Nat.cast_ofNat] at r4
  rw [r4]
  simp only [r3, List.append_assoc]

theorem scanStep_skip (s : Scan) (pre w t rest : List Byte)
    (hd : s.file.data = pre ++ (w ++ (t ++ rest))) (hp : s.file.pos = pre.length)
    (hw : w.length = 4) (ht : t.length = 4) (hne : t ≠ acTL) (hsz : beValue w + 4 < 2 ^ 31)
    (hbw : s.word.length = 4) (hbt : s.chunkType.length = 4) :
    scanStep s = .inr ⟨⟨s.file.data, pre.length + 8 + (beValue w + 4)⟩, w, t⟩ := by
  have r1 := File.read_at s.file pre w (t ++ rest) s.word hd hp (by omega)
  have r2 := File.read_at ⟨s.file.data, pre.length + w.length⟩ (pre ++ w) t rest s.chunkType
    (by simp [hd]) (by simp) (by omega)
  unfold scanStep
  rw [r1]
  simp only [r2, hne, if_false]
  rw [skipDistance_small w hsz, File.seekCur_nonneg]
  simp only [List.length_append, hw, ht]

/-! ## Lemmas on the scanning loop -/

theorem scanLoop_mono (n m : Nat) (h : n ≤ m) (s : Scan) (o : Outcome)
    (hs : scanLoop n s = some o) : scanLoop m s = some o := by
  induction n generalizing m s with
  | zero => simp [scanLoop] at hs
  | succ n ih =>
    obtain ⟨m, rfl⟩ : ∃ k, m = k + 1 := ⟨m - 1, by omega⟩
    unfold scanLoop at hs ⊢
    cases hstep : scanStep s with
    | inl o' => simpa [hstep] using hs
    | inr s' =>
      simp only [hstep] at hs ⊢
      exact ih m (by omega) s' hs

theorem Chunk.encode_length (c : Chunk) (h : c.WF) :
    c.encode.length = 8 + (c.payload.length + 4) := by
  obtain ⟨h1, -, h3⟩ := h
  simp only [Chunk.encode, List.length_append, be32_length, h1, h3]
  omega

theorem scanLoop_skipChunks (cs : List Chunk) (hcs : ∀ c ∈ cs, c.Skipped) :
    ∀ (fuel : Nat) (s : Scan) (pre rest : List Byte),
      s.file.data = pre ++ (encodeChunks cs ++ rest) → s.file.pos = pre.length →
      s.word.length = 4 → s.chunkType.length = 4 →
      ∃ w t, w.length = 4 ∧ t.length = 4 ∧
        scanLoop (cs.length + fuel) s =
          scanLoop fuel ⟨⟨s.file.data, pre.length + (encodeChunks cs).length⟩, w, t⟩ := by
  induction cs with
  | nil =>
    intro fuel s pre rest _ hp hbw hbt
    refine ⟨s.word, s.chunkType, hbw, hbt, ?_⟩
    obtain ⟨⟨d, p⟩, w, t⟩ := s
    simp only at hp
    simp [encodeChunks, hp]
  | cons c cs ih =>
    intro fuel s pre rest hd hp hbw hbt
    obtain ⟨hwf, hne, hsz⟩ := hcs c (List.mem_cons_self _ _)
    have hlen := Chunk.encode_length c hwf
    have hbe := beValue_be32 c.payload.length hwf.2.1
    have hd1 : s.file.data = pre ++ (be32 c.payload.length ++
        (c.type ++ (c.payload ++ c.crc ++ (encodeChunks cs ++ rest)))) := by
      simp [hd, encodeChunks, Chunk.encode]
    have hstep := scanStep_skip s pre (be32 c.payload.length) c.type _ hd1 hp
      (be32_length _) hwf.1 hne (by rw [hbe]; exact hsz) hbw hbt
    rw [hbe] at hstep
    have hd2 : s.file.data = (pre ++ c.encode) ++ (encodeChunks cs ++ rest) := by
      simp [hd, encodeChunks]
    obtain ⟨w, t, hw, ht, hrun⟩ := ih (fun x hx => hcs x (List.mem_cons_of_mem _ hx)) fuel
      ⟨⟨s.file.data, pre.length + 8 + (c.payload.length + 4)⟩, be32 c.payload.length, c.type⟩
      (pre ++ c.encode) rest hd2 (by simp [hlen, Nat.add_assoc]) (be32_length _) hwf.1
    refine ⟨w, t, hw, ht, ?_⟩
    have hfuel : (c :: cs).length + fuel = (cs.length + fuel) + 1 := by
      simp only [List.length_cons]; omega
    simp only [List.length_append, Nat.add_assoc] at hrun
    rw [hfuel, scanLoop, hstep]
    simp only [hrun, encodeChunks, List.length_append, Nat.add_assoc]

theorem LoopAPNG_signature (fuel : Nat) (rest : List Byte) :
    LoopAPNG fuel (pngSignature ++ rest) =
      scanLoop fuel ⟨⟨pngSignature ++ rest, 8⟩, List.replicate 4 0, List.replicate 4 0⟩ := by
  have r := File.read_at ⟨pngSignature ++ rest, 0⟩ [] pngSignature rest (List.replicate 8 0)
    rfl rfl rfl
  unfold LoopAPNG
  rw [r]
  simp [pngSignature]

/-- The run of `LoopAPNG` on a file made of the signature, chunks that are
stepped over, the 8-byte header of a chunk tagged `acTL` and any `tail`. -/
theorem LoopAPNG_patch (pre : List Chunk) (hpre : ∀ c ∈ pre, c.Skipped)
    (w tail : List Byte) (hw : w.length = 4) (fuel : Nat) (hfuel : pre.length + 1 ≤ fuel) :
    LoopAPNG fuel (pngSignature ++ (encodeChunks pre ++ (w ++ (acTL ++ tail)))) =
      some ⟨none, pngSignature ++ (encodeChunks pre ++ (w ++ (acTL ++ patchTail tail)))⟩ := by
  rw [LoopAPNG_signature]
  apply scanLoop_mono (pre.length + 1) fuel hfuel
  obtain ⟨b1, b2, h1, h2, hrun⟩ := scanLoop_skipChunks pre hpre 1
    ⟨⟨pngSignature ++ (encodeChunks pre ++ (w ++ (acTL ++ tail))), 8⟩,
      List.replicate 4 0, List.replicate 4 0⟩ pngSignature (w ++ (acTL ++ tail)) rfl rfl rfl rfl
  rw [hrun]
  have hstep := scanStep_actl
    ⟨⟨pngSignature ++ (encodeChunks pre ++ (w ++ (acTL ++ tail))),
      pngSignature.length + (encodeChunks pre).length⟩, b1, b2⟩
    (pngSignature ++ encodeChunks pre) w tail (by simp) (by simp) hw h1 h2
  simp only [scanLoop, hstep, List.append_assoc]

theorem scanStep_other (s : Scan) (pre w t rest : List Byte)
    (hd : s.file.data = pre ++ (w ++ (t ++ rest))) (hp : s.file.pos = pre.length)
    (hw : w.length = 4) (ht : t.length = 4) (hne : t ≠ acTL)
    (hbw : s.word.length = 4) (hbt : s.chunkType.length = 4) :
    scanStep s =
      match (File.mk s.file.data (pre.length + 8)).seekCur (skipDistance w) with
      | .error e => .inl ⟨some e, s.file.data⟩
      | .ok f3 => .inr ⟨f3, w, t⟩ := by
  have r1 := File.read_at s.file pre w (t ++ rest) s.word hd hp (by omega)
  have r2 := File.read_at ⟨s.file.data, pre.length + w.length⟩ (pre ++ w) t rest s.chunkType
    (by simp [hd]) (by simp) (by omega)
  unfold scanStep
  rw [r1]
  simp only [r2, hne, if_false]
  simp only [List.length_append, hw, ht]

/-! ## The patch of a valid chunk container -/

theorem exists_first_actl (cs : List Chunk) (h : ∃ c ∈ cs, c.type = acTL) :
    ∃ a post, cs = beforeACTL cs ++ a :: post ∧ a.type = acTL ∧
      ∀ c ∈ beforeACTL cs, c.type ≠ acTL := by
  induction cs with
  | nil => simp at h
  | cons c cs ih =>
    by_cases hc : c.type = acTL
    · refine ⟨c, cs, ?_, hc, ?_⟩ <;> simp [beforeACTL, List.takeWhile, Chunk.notACTL, hc]
    · obtain ⟨x, hx, hxt⟩ := h
      have hx2 : x ∈ cs := by
        rcases List.mem_cons.1 hx with rfl | h2
        · exact absurd hxt hc
        · exact h2
      obtain ⟨a, post, h1, h2, h3⟩ := ih ⟨x, hx2, hxt⟩
      have hb : beforeACTL (c :: cs) = c :: beforeACTL cs := by
        simp [beforeACTL, List.takeWhile, Chunk.notACTL, hc]
      refine ⟨a, post, ?_, h2, ?_⟩
      · rw [hb, List.cons_append, ← h1]
      · intro y hy
        rw [hb] at hy
        rcases List.mem_cons.1 hy with rfl | h4
        · exact hc
        · exact h3 y h4

theorem encodeChunks_append (xs ys : List Chunk) :
    encodeChunks (xs ++ ys) = encodeChunks xs ++ encodeChunks ys := by
  induction xs with
  | nil => rfl
  | cons c xs ih => simp [encodeChunks, ih]

theorem firstACTLPayload_append (pre : List Chunk) (a : Chunk) (post : List Chunk)
    (hpre : ∀ c ∈ pre, c.type ≠ acTL) (ha : a.type = acTL) :
    firstACTLPayload (pre ++ a :: post) = (encodeChunks pre).length + 8 := by
  induction pre with
  | nil => simp [firstACTLPayload, ha, encodeChunks]
  | cons c pre ih =>
    have hc := hpre c (List.mem_cons_self _ _)
    have h := ih (fun x hx => hpre x (List.mem_cons_of_mem _ hx))
    rw [List.cons_append, firstACTLPayload, if_neg hc, h, encodeChunks, List.length_append]
    omega

theorem encodeChunks_length_mem (cs : List Chunk) (c : Chunk) (hc : c ∈ cs) :
    c.encode.length ≤ (encodeChunks cs).length := by
  induction cs with
  | nil => simp at hc
  | cons x cs ih =>
    simp only [encodeChunks, List.length_append]
    rcases List.mem_cons.1 hc with rfl | h
    · omega
    · have := ih h
      omega

theorem patchTail_long (tail : List Byte) (h : 8 ≤ tail.length) :
    patchTail tail = tail.take 4 ++ ([0, 0, 0, 0] ++ tail.drop 8) ∧
      tail = tail.take 4 ++ ((tail.drop 4).take 4 ++ tail.drop 8) := by
  constructor
  · unfold patchTail
    have h0 : 4 - tail.length = 0 := by omega
    simp [h0]
  · have h1 : tail.drop 8 = (tail.drop 4).drop 4 := by simp
    rw [h1, List.take_append_drop, List.take_append_drop]

theorem window_zero (P M R : List Byte) (hM : M.length = 4) :
    (P ++ ([0, 0, 0, 0] ++ R)).length = (P ++ (M ++ R)).length ∧
    (∀ i, P.length ≤ i → i < P.length + 4 → (P ++ ([0, 0, 0, 0] ++ R))[i]? = some 0) ∧
    (∀ i, (i < P.length ∨ P.length + 4 ≤ i) →
      (P ++ ([0, 0, 0, 0] ++ R))[i]? = (P ++ (M ++ R))[i]?) := by
  have hZ : ([0, 0, 0, 0] : List Byte).length = 4 := rfl
  refine ⟨by simp only [List.length_append, hM, hZ], ?_, ?_⟩
  · intro i h1 h2
    rw [List.getElem?_append_right h1]
    obtain ⟨j, hj⟩ : ∃ j, i - P.length = j := ⟨_, rfl⟩
    rw [hj]
    have hj4 : j < 4 := by omega
    interval_cases j <;> simp
  · intro i hi
    rcases hi with h | h
    · rw [List.getElem?_append_left h, List.getElem?_append_left h]
    · rw [List.getElem?_append_right (by omega),
        List.getElem?_append_right (by rw [hZ]; omega),
        List.getElem?_append_right (by omega),
        List.getElem?_append_right (by rw [hM]; omega), hZ, hM]

theorem patch_first_actl (pre : List Chunk) (a : Chunk) (post : List Chunk)
    (hpre : ∀ c ∈ pre, c.Skipped) (ha : a.type = acTL)
    (htail : 8 ≤ (a.payload ++ (a.crc ++ encodeChunks post)).length)
    (fuel : Nat) (hfuel : pre.length + 1 ≤ fuel) :
    ∃ out, LoopAPNG fuel (encodeContainer (pre ++ a :: post)) = some ⟨none, out⟩ ∧
      out.length = (encodeContainer (pre ++ a :: post)).length ∧
      (∀ i, repeatCountOffset (pre ++ a :: post) ≤ i →
        i < repeatCountOffset (pre ++ a :: post) + 4 → out[i]? = some 0) ∧
      (∀ i, (i < repeatCountOffset (pre ++ a :: post) ∨
          repeatCountOffset (pre ++ a :: post) + 4 ≤ i) →
        out[i]? = (encodeContainer (pre ++ a :: post))[i]?) := by
  obtain ⟨tail, htl⟩ : ∃ tail, tail = a.payload ++ (a.crc ++ encodeChunks post) := ⟨_, rfl⟩
  rw [← htl] at htail
  have hdata : encodeContainer (pre ++ a :: post) =
      pngSignature ++ (encodeChunks pre ++ (be32 a.payload.length ++ (acTL ++ tail))) := by
    simp [encodeContainer, encodeChunks_append, encodeChunks, Chunk.encode, ha, htl]
  have hrun := LoopAPNG_patch pre hpre (be32 a.payload.length) tail (be32_length _) fuel hfuel
  have hoff : repeatCountOffset (pre ++ a :: post) =
      (pngSignature ++ (encodeChunks pre ++ (be32 a.payload.length ++ (acTL ++ tail.take 4)))).length := by
    rw [repeatCountOffset, firstACTLPayload_append pre a post (fun c hc => (hpre c hc).2.1) ha]
    simp only [List.length_append, be32_length, List.length_take]
    have h1 : pngSignature.length = 8 := rfl
    have h2 : acTL.length = 4 := rfl
    rw [h1, h2, Nat.min_eq_left (by omega)]
    omega
  obtain ⟨hp1, hp2⟩ := patchTail_long tail htail
  have hM : ((tail.drop 4).take 4).length = 4 := by
    rw [List.length_take, List.length_drop]; omega
  have hwin := window_zero
    (pngSignature ++ (encodeChunks pre ++ (be32 a.payload.length ++ (acTL ++ tail.take 4))))
    ((tail.drop 4).take 4) (tail.drop 8) hM
  have e1 : pngSignature ++ (encodeChunks pre ++ (be32 a.payload.length ++ (acTL ++ patchTail tail))) =
      (pngSignature ++ (encodeChunks pre ++ (be32 a.payload.length ++ (acTL ++ tail.take 4)))) ++
        ([0, 0, 0, 0] ++ tail.drop 8) := by
    rw [hp1]; simp only [List.append_assoc]
  have e2 : pngSignature ++ (encodeChunks pre ++ (be32 a.payload.length ++ (acTL ++ tail))) =
      (pngSignature ++ (encodeChunks pre ++ (be32 a.payload.length ++ (acTL ++ tail.take 4)))) ++
        ((tail.drop 4).take 4 ++ tail.drop 8) := by
    conv_lhs => rw [hp2]
    simp only [List.append_assoc]
  rw [hdata, hoff, hrun, e2]
  refine ⟨_, rfl, ?_⟩
  rw [e1]
  exact hwin

/-- The run of `LoopAPNG` on `hugeChunks`: the first skip is computed as
`-2 ^ 31` and the `Seek` is refused. -/
theorem LoopAPNG_hugeChunks (fuel : Nat) :
    LoopAPNG (fuel + 1) (encodeContainer hugeChunks) =
      some ⟨some .einval, encodeContainer hugeChunks⟩ := by
  have hlen : hugePayload.length = 2 ^ 31 - 4 := List.length_replicate _ _
  obtain ⟨rest, hrest⟩ : ∃ rest, rest = hugePayload ++ ([0, 0, 0, 0] ++
      encodeChunks [⟨acTL, [0, 0, 0, 1, 0, 0, 0, 1], [0, 0, 0, 0]⟩]) := ⟨_, rfl⟩
  have hdata : encodeContainer hugeChunks =
      pngSignature ++ ([0x7F, 0xFF, 0xFF, 0xFC] ++ ([0x49, 0x44, 0x41, 0x54] ++ rest)) := by
    have hb : be32 (2 ^ 31 - 4) = [0x7F, 0xFF, 0xFF, 0xFC] := by decide
    simp only [encodeContainer, hugeChunks, encodeChunks, Chunk.encode, hlen, hb, hrest,
      List.append_assoc]
  have hskip : skipDistance [0x7F, 0xFF, 0xFF, 0xFC] = -2 ^ 31 := by decide
  rw [hdata, LoopAPNG_signature]
  have hstep := scanStep_other
    ⟨⟨pngSignature ++ ([0x7F, 0xFF, 0xFF, 0xFC] ++ ([0x49, 0x44, 0x41, 0x54] ++ rest)), 8⟩,
      List.replicate 4 0, List.replicate 4 0⟩
    pngSignature [0x7F, 0xFF, 0xFF, 0xFC] [0x49, 0x44, 0x41, 0x54] rest rfl rfl rfl rfl
    (by decide) rfl rfl
  rw [scanLoop, hstep, hskip]
  rfl

theorem LoopAPNG_mono (n m : Nat) (h : n ≤ m) (data : List Byte) (o : Outcome)
    (hs : LoopAPNG n data = some o) : LoopAPNG m data = some o := by
  unfold LoopAPNG at hs ⊢
  cases hr : (File.mk data 0).read (List.replicate 8 0) with
  | error e =>
    simp only [hr] at hs ⊢
    exact hs
  | ok r =>
    obtain ⟨f, head⟩ := r
    simp only [hr] at hs ⊢
    by_cases hh : head ≠ pngSignature
    · rw [if_pos hh] at hs ⊢
      exact hs
    · rw [if_neg hh] at hs ⊢
      exact scanLoop_mono n m h _ o hs

theorem scanLoop_loopingFile (fuel : Nat) (b1 b2 : List Byte)
    (h1 : b1.length = 4) (h2 : b2.length = 4) :
    scanLoop fuel ⟨⟨loopingFile, 8⟩, b1, b2⟩ = none := by
  induction fuel generalizing b1 b2 with
  | zero => rfl
  | succ n ih =>
    have hstep := scanStep_other ⟨⟨loopingFile, 8⟩, b1, b2⟩ pngSignature
      [0xFF, 0xFF, 0xFF, 0xF4] [0x49, 0x44, 0x41, 0x54] [] rfl rfl rfl rfl (by decide) h1 h2
    have hskip : skipDistance [0xFF, 0xFF, 0xFF, 0xF4] = -8 := by decide
    rw [hskip] at hstep
    have hseek : (File.mk loopingFile (pngSignature.length + 8)).seekCur (-8) =
        .ok ⟨loopingFile, 8⟩ := rfl
    simp only [hseek] at hstep
    rw [scanLoop, hstep]
    exact ih _ _ rfl rfl

/-! ## Runs that end at the end of the file, and second runs -/

theorem File.read_short (f : File) (pre tail buf : List Byte)
    (hd : f.data = pre ++ tail) (hp : f.pos = pre.length)
    (h0 : tail.length ≠ 0) (hle : tail.length ≤ buf.length) :
    f.read buf = .ok (⟨f.data, f.data.length⟩, tail ++ buf.drop tail.length) := by
  unfold File.read
  simp only [hd, hp, List.drop_left, List.take_of_length_le hle, List.length_append]
  rw [if_neg (fun h => h0 h.1)]

/-- After chunks that are stepped over, a file that ends on the chunk boundary
or inside the next length field (at most 4 more bytes) makes `LoopAPNG` return
`io.EOF` without a write. -/
theorem LoopAPNG_eof_after_chunks (cs : List Chunk) (hcs : ∀ c ∈ cs, c.Skipped)
    (tail : List Byte) (htail : tail.length ≤ 4) (fuel : Nat) (hfuel : cs.length + 1 ≤ fuel) :
    LoopAPNG fuel (pngSignature ++ (encodeChunks cs ++ tail)) =
      some ⟨some .eof, pngSignature ++ (encodeChunks cs ++ tail)⟩ := by
  rw [LoopAPNG_signature]
  apply scanLoop_mono (cs.length + 1) fuel hfuel
  obtain ⟨b1, b2, h1, h2, hrun⟩ := scanLoop_skipChunks cs hcs 1
    ⟨⟨pngSignature ++ (encodeChunks cs ++ tail), 8⟩, List.replicate 4 0, List.replicate 4 0⟩
    pngSignature tail rfl rfl rfl rfl
  rw [hrun]
  simp only [scanLoop]
  unfold scanStep
  by_cases h0 : tail.length = 0
  · have hnil : tail = [] := List.length_eq_zero.1 h0
    subst hnil
    rw [File.read_eof
      ⟨pngSignature ++ (encodeChunks cs ++ []), pngSignature.length + (encodeChunks cs).length⟩
      b1 (by simp) (by omega)]
  · have r1 := File.read_short
      ⟨pngSignature ++ (encodeChunks cs ++ tail), pngSignature.length + (encodeChunks cs).length⟩
      (pngSignature ++ encodeChunks cs) tail b1 (by simp) (by simp) h0 (by omega)
    simp only [r1]
    rw [File.read_eof ⟨pngSignature ++ (encodeChunks cs ++ tail),
      (pngSignature ++ (encodeChunks cs ++ tail)).length⟩ b2 (Nat.le_refl _) (by omega)]

/-- After chunks that are stepped over, a last chunk that is not tagged `acTL`
and is cut off inside its payload or its checksum makes `LoopAPNG` return
`io.EOF` without a write. -/
theorem LoopAPNG_eof_in_payload (cs : List Chunk) (hcs : ∀ c ∈ cs, c.Skipped)
    (w t part : List Byte) (hw : w.length = 4) (ht : t.length = 4) (hne : t ≠ acTL)
    (hsz : beValue w + 4 < 2 ^ 31) (hpart : part.length ≤ beValue w + 4)
    (fuel : Nat) (hfuel : cs.length + 2 ≤ fuel) :
    LoopAPNG fuel (pngSignature ++ (encodeChunks cs ++ (w ++ (t ++ part)))) =
      some ⟨some .eof, pngSignature ++ (encodeChunks cs ++ (w ++ (t ++ part)))⟩ := by
  rw [LoopAPNG_signature]
  apply scanLoop_mono (cs.length + 2) fuel hfuel
  obtain ⟨b1, b2, h1, h2, hrun⟩ := scanLoop_skipChunks cs hcs 2
    ⟨⟨pngSignature ++ (encodeChunks cs ++ (w ++ (t ++ part))), 8⟩,
      List.replicate 4 0, List.replicate 4 0⟩
    pngSignature (w ++ (t ++ part)) rfl rfl rfl rfl
  rw [hrun]
  have hstep := scanStep_skip
    ⟨⟨pngSignature ++ (encodeChunks cs ++ (w ++ (t ++ part))),
      pngSignature.length + (encodeChunks cs).length⟩, b1, b2⟩
    (pngSignature ++ encodeChunks cs) w t part (by simp) (by simp) hw ht hne hsz h1 h2
  rw [scanLoop, hstep]
  simp only [scanLoop]
  unfold scanStep
  rw [File.read_eof ⟨pngSignature ++ (encodeChunks cs ++ (w ++ (t ++ part))),
    (pngSignature ++ encodeChunks cs).length + 8 + (beValue w + 4)⟩ w
    (by simp only [List.length_append, hw, ht]; omega) (by omega)]

theorem patchTail_idem (tail : List Byte) : patchTail (patchTail tail) = patchTail tail := by
  have hlen : ((tail ++ List.replicate (4 - tail.length) (0 : Byte)).take 4).length = 4 := by
    rw [List.length_take, List.length_append, List.length_replicate]; omega
  obtain ⟨A, hA⟩ : ∃ A, A = (tail ++ List.replicate (4 - tail.length) (0 : Byte)).take 4 :=
    ⟨_, rfl⟩
  rw [← hA] at hlen
  have hp : patchTail tail = A ++ ([0, 0, 0, 0] ++ tail.drop 8) := by
    unfold patchTail; rw [← hA, List.append_assoc]
  have h8 : 8 ≤ (patchTail tail).length := by
    rw [hp]; simp only [List.length_append, hlen, List.length_cons, List.length_nil]; omega
  rw [(patchTail_long _ h8).1, hp]
  have e1 : (A ++ ([0, 0, 0, 0] ++ tail.drop 8)).take 4 = A := by
    rw [List.take_append_of_le_length (by omega), List.take_of_length_le (by omega)]
  have e2 : (A ++ ([0, 0, 0, 0] ++ tail.drop 8)).drop 8 = tail.drop 8 := by
    have : A ++ ([0, 0, 0, 0] ++ tail.drop 8) = (A ++ [0, 0, 0, 0]) ++ tail.drop 8 := by simp
    rw [this, List.drop_left' (by simp [hlen])]
  rw [e1, e2]

/-- On a file made of the signature, chunks that are stepped over and the
header of a chunk tagged `acTL`, `LoopAPNG` is idempotent: the second run
returns `nil` again and leaves the file of the first run as it is. -/
theorem LoopAPNG_idempotent_after_chunks (pre : List Chunk) (hpre : ∀ c ∈ pre, c.Skipped)
    (w tail : List Byte) (hw : w.length = 4) (fuel : Nat) (hfuel : pre.length + 1 ≤ fuel) :
    ∃ out, LoopAPNG fuel (pngSignature ++ (encodeChunks pre ++ (w ++ (acTL ++ tail)))) =
        some ⟨none, out⟩ ∧
      LoopAPNG fuel out = some ⟨none, out⟩ := by
  refine ⟨_, LoopAPNG_patch pre hpre w tail hw fuel hfuel, ?_⟩
  have h := LoopAPNG_patch pre hpre w (patchTail tail) hw fuel hfuel
  rw [patchTail_idem] at h
  exact h

/-! ## Termination of the loop when no skip goes backwards -/

theorem File.read_ok (f f2 : File) (buf b2 : List Byte) (h : f.read buf = .ok (f2, b2)) :
    f2.data = f.data ∧ f2.pos = f.pos + min buf.length (f.data.length - f.pos) ∧
      b2.length = buf.length ∧ (buf.length ≠ 0 → f.pos < f.data.length) ∧
      (buf.length ≤ f.data.length - f.pos → b2 = (f.data.drop f.pos).take buf.length) := by
  unfold File.read at h
  have hlen : ((f.data.drop f.pos).take buf.length).length =
      min buf.length (f.data.length - f.pos) := by
    rw [List.length_take, List.length_drop]
  simp only [] at h
  split_ifs at h with hc
  rw [hlen] at hc h
  simp only [Except.ok.injEq, Prod.mk.injEq] at h
  obtain ⟨h1, h2⟩ := h
  subst h1 h2
  refine ⟨rfl, rfl, ?_, ?_, ?_⟩
  · simp only [List.length_append, List.length_take, List.length_drop]
    omega
  · intro hb
    by_contra hlt
    exact hc ⟨by omega, hb⟩
  · intro hle
    rw [Nat.min_eq_left hle, List.drop_length, List.append_nil]

theorem scanStep_forward (s s2 : Scan) (hfw : ForwardSkips s.file.data)
    (hbw : s.word.length = 4) (hbt : s.chunkType.length = 4)
    (h : scanStep s = .inr s2) :
    s2.file.data = s.file.data ∧ s.file.pos < s2.file.pos ∧
      s.file.pos < s.file.data.length ∧ s2.word.length = 4 ∧ s2.chunkType.length = 4 := by
  unfold scanStep at h
  cases hr1 : s.file.read s.word with
  | error e => simp [hr1] at h
  | ok r1 =>
    obtain ⟨f1, word⟩ := r1
    simp only [hr1] at h
    cases hr2 : f1.read s.chunkType with
    | error e => simp [hr2] at h
    | ok r2 =>
      obtain ⟨f2, chunkType⟩ := r2
      simp only [hr2] at h
      obtain ⟨d1, p1, l1, n1, w1⟩ := File.read_ok _ _ _ _ hr1
      obtain ⟨d2, p2, l2, n2, -⟩ := File.read_ok _ _ _ _ hr2
      have hn1 := n1 (by omega)
      have hn2 := n2 (by omega)
      rw [d1, p1] at hn2
      rw [d1, p1] at p2
      rw [hbw] at p1 hn2 p2 w1
      rw [hbt] at p2
      have hfull : 4 ≤ s.file.data.length - s.file.pos := by omega
      have hword := w1 hfull
      have hskip := hfw s.file.pos (by omega)
      rw [← hword] at hskip
      by_cases hact : chunkType = acTL
      · rw [if_pos hact] at h
        cases hs : f2.seekCur 4 <;> simp [hs] at h
      · rw [if_neg hact] at h
        unfold File.seekCur at h
        split_ifs at h with hneg
        simp only [Sum.inr.injEq] at h
        subst h
        refine ⟨by rw [d2, d1], ?_, hn1, l1.trans hbw, l2.trans hbt⟩
        simp only
        omega

theorem scanLoop_terminates (data : List Byte) (hfw : ForwardSkips data) :
    ∀ (fuel : Nat) (s : Scan), s.file.data = data → s.word.length = 4 →
      s.chunkType.length = 4 → data.length - s.file.pos < fuel →
      ∃ o, scanLoop fuel s = some o := by
  intro fuel
  induction fuel with
  | zero =>
    intro s _ _ _ hm
    omega
  | succ n ih =>
    intro s hd hbw hbt hm
    unfold scanLoop
    cases hs : scanStep s with
    | inl o => exact ⟨o, rfl⟩
    | inr s2 =>
      obtain ⟨e1, e2, e3, e4, e5⟩ := scanStep_forward s s2 (hd ▸ hfw) hbw hbt hs
      rw [hd] at e3
      exact ih s2 (e1.trans hd) e4 e5 (by omega)

/-- When no skip goes backwards, `LoopAPNG` returns: `data.length` iterations
of the loop are enough, and each iteration that does not return moves the
offset forward (`scanStep_forward`). -/
theorem LoopAPNG_terminates (data : List Byte) (hfw : ForwardSkips data) :
    ∃ o, LoopAPNG data.length data = some o := by
  unfold LoopAPNG
  cases hr : (File.mk data 0).read (List.replicate 8 0) with
  | error e => exact ⟨_, rfl⟩
  | ok r =>
    obtain ⟨f, head⟩ := r
    simp only [hr]
    obtain ⟨d1, p1, -, n1, -⟩ := File.read_ok _ _ _ _ hr
    simp only [List.length_replicate] at p1 n1
    have hpos := n1 (by omega)
    simp only at d1 p1 hpos
    by_cases hh : head ≠ pngSignature
    · rw [if_pos hh]
      exact ⟨_, rfl⟩
    · rw [if_neg hh]
      exact scanLoop_terminates data hfw data.length ⟨f, List.replicate 4 0, List.replicate 4 0⟩
        d1 rfl rfl (by simp only [p1]; omega)

/-! ## The claims on LoopAPNG -/

/-- The patch of a valid chunk container. For a valid chunk container (the
signature followed by well-formed chunks) that contains an `acTL` chunk with a
payload of at least 8 bytes, and in which every chunk in front of the first
`acTL` chunk declares a length of at most `2 ^ 31 - 5`, `LoopAPNG` returns
`nil` (for every bound on the iterations that is at least the number of
chunks); afterwards the 4 bytes at the repeat-count offset of the first `acTL`
chunk are zero, every other byte is as before, and the length of the file is
unchanged. -/
theorem LoopAPNG_patches_container (cs : List Chunk)
    (hwf : ∀ c ∈ cs, c.WF)
    (hactl : ∃ c ∈ cs, c.type = acTL ∧ 8 ≤ c.payload.length)
    (hsmall : ∀ c ∈ beforeACTL cs, c.payload.length + 4 < 2 ^ 31)
    (fuel : Nat) (hfuel : cs.length ≤ fuel) :
    ∃ out, LoopAPNG fuel (encodeContainer cs) = some ⟨none, out⟩ ∧
      out.length = (encodeContainer cs).length ∧
      (∀ i, repeatCountOffset cs ≤ i → i < repeatCountOffset cs + 4 → out[i]? = some 0) ∧
      (∀ i, (i < repeatCountOffset cs ∨ repeatCountOffset cs + 4 ≤ i) →
        out[i]? = (encodeContainer cs)[i]?) := by
  obtain ⟨x, hx, hxt, hx8⟩ := hactl
  obtain ⟨a, post, hcs, ha, hne⟩ := exists_first_actl cs ⟨x, hx, hxt⟩
  obtain ⟨pre, hpre⟩ : ∃ pre, pre = beforeACTL cs := ⟨_, rfl⟩
  rw [← hpre] at hcs hne hsmall
  subst hcs
  have hskipped : ∀ c ∈ pre, c.Skipped := fun c hc =>
    ⟨hwf c (List.mem_append_left _ hc), hne c hc, hsmall c hc⟩
  have htail : 8 ≤ (a.payload ++ (a.crc ++ encodeChunks post)).length := by
    simp only [List.length_append]
    rcases List.mem_append.1 hx with h | h
    · exact absurd hxt (hne x h)
    · rcases List.mem_cons.1 h with rfl | h2
      · omega
      · have h3 := encodeChunks_length_mem post x h2
        have h4 := Chunk.encode_length x (hwf x hx)
        omega
  refine patch_first_actl pre a post hskipped ha htail fuel ?_
  simp only [List.length_append, List.length_cons] at hfuel
  omega

/-- The container `sampleChunks` meets the hypotheses of
`LoopAPNG_patches_container`, and `LoopAPNG` patches it within 3 iterations. -/
theorem LoopAPNG_patches_sampleChunks :
    (∀ c ∈ sampleChunks, c.WF) ∧
    (∃ c ∈ sampleChunks, c.type = acTL ∧ 8 ≤ c.payload.length) ∧
    ∃ out, LoopAPNG 3 (encodeContainer sampleChunks) = some ⟨none, out⟩ ∧
      out.length = (encodeContainer sampleChunks).length ∧
      (∀ i, repeatCountOffset sampleChunks ≤ i → i < repeatCountOffset sampleChunks + 4 →
        out[i]? = some 0) ∧
      (∀ i, (i < repeatCountOffset sampleChunks ∨ repeatCountOffset sampleChunks + 4 ≤ i) →
        out[i]? = (encodeContainer sampleChunks)[i]?) :=
  ⟨by decide, by decide,
    LoopAPNG_patches_container sampleChunks (by decide) (by decide) (by decide) 3
      (by decide)⟩

/-- C1, the run on the failing input. `hugeChunks` is a valid chunk container
with an `acTL` chunk of 8 payload bytes, whose first chunk declares
`2 ^ 31 - 4` bytes, a length the format allows. The `int32` sum `dataSize+4`
wraps to `-2 ^ 31`, the `Seek` is refused, and `LoopAPNG` returns that error
without a write, never `nil`. -/
theorem C1_huge_chunk_rejected :
    (∀ c ∈ hugeChunks, c.WF) ∧
    (∃ c ∈ hugeChunks, c.type = acTL ∧ 8 ≤ c.payload.length) ∧
    (∀ fuel, LoopAPNG (fuel + 1) (encodeContainer hugeChunks) =
      some ⟨some .einval, encodeContainer hugeChunks⟩) ∧
    ∀ fuel out, LoopAPNG fuel (encodeContainer hugeChunks) ≠ some ⟨none, out⟩ := by
  have hlen : hugePayload.length = 2 ^ 31 - 4 := List.length_replicate _ _
  refine ⟨?_, ?_, LoopAPNG_hugeChunks, ?_⟩
  · intro c hc
    simp only [hugeChunks, List.mem_cons, List.mem_singleton, List.not_mem_nil, or_false] at hc
    rcases hc with rfl | rfl
    · refine ⟨rfl, ?_, rfl⟩
      show hugePayload.length < 2 ^ 32
      rw [hlen]; decide
    · decide
  · exact ⟨⟨acTL, [0, 0, 0, 1, 0, 0, 0, 1], [0, 0, 0, 0]⟩, by simp [hugeChunks], rfl,
      by decide⟩
  · intro fuel out h
    have h1 := LoopAPNG_mono fuel (fuel + 1) (by omega) _ _ h
    rw [LoopAPNG_hugeChunks] at h1
    simp at h1

theorem head_ne_signature (data : List Byte) (h : data.take 8 ≠ pngSignature) :
    data.take 8 ++ (List.replicate 8 (0 : Byte)).drop (data.take 8).length ≠ pngSignature := by
  intro heq
  by_cases hl : 8 ≤ data.length
  · have h8 : (data.take 8).length = 8 := by rw [List.length_take]; omega
    rw [h8, List.drop_replicate] at heq
    exact h (by simpa using heq)
  · have hk : (data.take 8).length = data.length := by rw [List.length_take]; omega
    have h7 := congrArg (fun l => l[7]?) heq
    simp only [hk, List.drop_replicate] at h7
    rw [List.getElem?_append_right (by rw [hk]; omega), List.getElem?_replicate, hk] at h7
    have hlt : 7 - data.length < 8 - data.length := by omega
    rw [if_pos hlt] at h7
    exact absurd h7 (by decide)

/-- C3, amended. For every non-empty file content whose first 8 bytes are not
the PNG signature (contents of 1 to 7 bytes included) `LoopAPNG` returns
`InvalidPNGError`; for the empty file it returns `io.EOF`, the error of the
first `Read`. In both cases the content of the file is unchanged. -/
theorem C3_bad_signature (data : List Byte) (h : data.take 8 ≠ pngSignature) (fuel : Nat) :
    LoopAPNG fuel data =
      some ⟨some (if data = [] then Err.eof else Err.invalidPNG), data⟩ := by
  unfold LoopAPNG File.read
  simp only [List.drop_zero, List.length_replicate, Nat.zero_add]
  by_cases hd : data = []
  · subst hd
    simp
  · have hlen : ¬ ((data.take 8).length = 0 ∧ 8 ≠ 0) := by
      rw [List.length_take]
      have := List.length_pos.2 hd
      omega
    rw [if_neg hlen]
    simp only [if_pos (head_ne_signature data h), if_neg hd]

/-- C3, witness: a 3-byte file is rejected as an invalid PNG and left as it
was. -/
theorem C3_witness :
    LoopAPNG 5 [0x89, 0x50, 0x4E] = some ⟨some Err.invalidPNG, [0x89, 0x50, 0x4E]⟩ :=
  C3_bad_signature [0x89, 0x50, 0x4E] (by decide) 5

/-- C3, counterexample. The first 8 bytes of the empty file are not the
signature, yet `LoopAPNG` returns `io.EOF` on it, not `InvalidPNGError`. -/
theorem C3_counterexample :
    ([] : List Byte).take 8 ≠ pngSignature ∧
    ∀ fuel, LoopAPNG fuel [] = some ⟨some Err.eof, []⟩ ∧
      LoopAPNG fuel [] ≠ some ⟨some Err.invalidPNG, []⟩ := by
  refine ⟨by decide, fun fuel => ?_⟩
  have h : LoopAPNG fuel [] = some ⟨some Err.eof, []⟩ := by
    unfold LoopAPNG File.read
    simp
  rw [h]
  exact ⟨rfl, by decide⟩

/-- C4, the run on the failing input. `truncatedFile` begins with the
signature and ends inside the type field of its second chunk, with no chunk
tagged `acTL`. The short `Read` leaves `cTL` of the previous tag `fcTL` in the
buffer behind the new byte `a`, the comparison with `acTL` succeeds, and
`LoopAPNG` returns `nil` after writing past the end of the file: the file
grows from 25 to 33 bytes. -/
theorem C4_truncated_type_field :
    truncatedFile.take 8 = pngSignature ∧
    truncatedFile.length = 25 ∧
    LoopAPNG 2 truncatedFile = some ⟨none, truncatedFile ++ [0, 0, 0, 0, 0, 0, 0, 0]⟩ := by
  decide

/-- C5, the run on the failing input. `LoopAPNG` returns `nil` on
`truncatedFile` and leaves a file of 33 bytes; run on that file it returns
`io.EOF`, for every bound on the iterations that lets it return. -/
theorem C5_second_run_fails :
    LoopAPNG 2 truncatedFile = some ⟨none, truncatedFile ++ [0, 0, 0, 0, 0, 0, 0, 0]⟩ ∧
    LoopAPNG 3 (truncatedFile ++ [0, 0, 0, 0, 0, 0, 0, 0]) =
      some ⟨some Err.eof, truncatedFile ++ [0, 0, 0, 0, 0, 0, 0, 0]⟩ ∧
    ∀ fuel out, LoopAPNG fuel (truncatedFile ++ [0, 0, 0, 0, 0, 0, 0, 0]) ≠
      some ⟨none, out⟩ := by
  have h2 : LoopAPNG 3 (truncatedFile ++ [0, 0, 0, 0, 0, 0, 0, 0]) =
      some ⟨some Err.eof, truncatedFile ++ [0, 0, 0, 0, 0, 0, 0, 0]⟩ := by decide
  refine ⟨by decide, h2, ?_⟩
  intro fuel out h
  have h3 := LoopAPNG_mono fuel (fuel + 3) (by omega) _ _ h
  have h4 := LoopAPNG_mono 3 (fuel + 3) (by omega) _ _ h2
  rw [h3] at h4
  simp at h4

theorem LoopAPNG_loopingFile (fuel : Nat) : LoopAPNG fuel loopingFile = none := by
  have h : loopingFile = pngSignature ++ ([0xFF, 0xFF, 0xFF, 0xF4] ++ [0x49, 0x44, 0x41, 0x54]) :=
    rfl
  rw [h, LoopAPNG_signature, ← h]
  exact scanLoop_loopingFile fuel _ _ rfl rfl

/-- C10, the run on the failing input. On `loopingFile` the skip distance is
`-12 + 4 = -8`, the `Seek` moves the offset from 16 back to 8, the start of
the same chunk header, and the loop never returns: no bound on the number of
iterations is enough. -/
theorem C10_loop_does_not_return :
    skipDistance [0xFF, 0xFF, 0xFF, 0xF4] = -8 ∧
    ∀ fuel, LoopAPNG fuel loopingFile = none := by
  refine ⟨by decide, fun fuel => ?_⟩
  have h : loopingFile = pngSignature ++ ([0xFF, 0xFF, 0xFF, 0xF4] ++ [0x49, 0x44, 0x41, 0x54]) :=
    rfl
  rw [h, LoopAPNG_signature, ← h]
  exact scanLoop_loopingFile fuel _ _ rfl rfl

/-! ## Folder names -/

theorem stringsReplace_eq_map (s : List Char) (old : Char) :
    stringsReplace s old ['_'] = s.map (fun x => if x = old then '_' else x) := by
  induction s with
  | nil => rfl
  | cons c cs ih =>
    by_cases h : c = old <;> simp [stringsReplace, h, ih]

theorem foldl_replace_eq_map (cs : List Char) (h : '_' ∉ cs) (s : List Char) :
    cs.foldl (fun s char => stringsReplace s char ['_']) s =
      s.map (fun x => if x ∈ cs then '_' else x) := by
  induction cs generalizing s with
  | nil => simp
  | cons c cs ih =>
    have hc : '_' ∉ cs := fun hm => h (List.mem_cons_of_mem _ hm)
    have hne : ¬ '_' = c := fun he => h (he ▸ List.mem_cons_self _ _)
    rw [List.foldl_cons, ih hc, stringsReplace_eq_map, List.map_map]
    apply List.map_congr_left
    intro x _
    by_cases hx : x = c
    · subst hx
      simp [hc]
    · simp [hx]

theorem isSpace_iff (c : Char) : isSpace c = true ↔ c.toNat ∈ whiteSpace := by
  unfold isSpace whiteSpace
  simp only [Bool.or_eq_true, Bool.and_eq_true, decide_eq_true_eq, beq_iff_eq, List.mem_cons,
    List.mem_singleton, List.not_mem_nil, or_false]
  omega

theorem trimSpace_eq_specTrim (s : List Char) : trimSpace s = specTrim s := rfl

/-- What `strings.TrimSpace` does to a string: it removes a run of white
space at the front and one at the back, and what is left neither starts nor
ends with white space. -/
theorem trimSpace_spec (s : List Char) :
    ∃ front back, s = front ++ trimSpace s ++ back ∧
      (∀ c ∈ front, isSpace c = true) ∧ (∀ c ∈ back, isSpace c = true) ∧
      (∀ c, (trimSpace s).head? = some c → isSpace c = false) ∧
      (∀ c, (trimSpace s).getLast? = some c → isSpace c = false) := by
  obtain ⟨m, hm⟩ : ∃ m, m = s.dropWhile isSpace := ⟨_, rfl⟩
  have hs : s = s.takeWhile isSpace ++ m := by
    rw [hm, List.takeWhile_append_dropWhile]
  have ht : trimSpace s = (m.reverse.dropWhile isSpace).reverse := by
    unfold trimSpace; rw [hm]
  have hmsplit : m = trimSpace s ++ (m.reverse.takeWhile isSpace).reverse := by
    rw [ht, ← List.reverse_append, List.takeWhile_append_dropWhile, List.reverse_reverse]
  refine ⟨s.takeWhile isSpace, (m.reverse.takeWhile isSpace).reverse, ?_, ?_, ?_, ?_, ?_⟩
  · rw [List.append_assoc, ← hmsplit]
    exact hs
  · intro c hc
    exact List.mem_takeWhile_imp hc
  · intro c hc
    rw [List.mem_reverse] at hc
    exact List.mem_takeWhile_imp hc
  · intro c hc
    have h1 : m.head? = some c := by
      rw [hmsplit]
      cases hts : trimSpace s with
      | nil => rw [hts] at hc; simp at hc
      | cons x xs =>
        rw [hts] at hc
        simpa using hc
    have h2 := List.head?_dropWhile_not isSpace s
    rw [← hm, h1] at h2
    exact h2
  · intro c hc
    rw [ht, List.getLast?_reverse] at hc
    have h2 := List.head?_dropWhile_not isSpace m.reverse
    rw [hc] at h2
    exact h2

theorem normalizeFileName_data (str : String) :
    (normalizeFileName str).data =
      trimSpace (str.data.map (fun c => if c ∈ InvalidFileNameChars then '_' else c)) := by
  unfold normalizeFileName
  rw [foldl_replace_eq_map _ (by decide)]

/-- C9. The folder name is the override when one is supplied. Otherwise it is
`decimal(n) + " - " + t` with every character of `InvalidFileNameChars`
replaced by `_` and then trimmed of surrounding white space: the replaced
string is the name with a run of white space in front of it and one behind
it, the name neither starts nor ends with white space, and it holds no
character of `InvalidFileNameChars`; white space is the 25 code points of
`whiteSpace`. For the id 7 and the title `A/B:C` the
name is `7 - A_B_C`; the same title with two spaces behind it gives the same
name, and a tab behind it is replaced before the trimming and stays as `_`. -/
theorem C9_folderName (override : String) (n : Int) (t : String) :
    folderName override n t = (if override = "" then specFolderName n t else override) ∧
    (∃ front back, specReplaced n t = front ++ (folderName "" n t).data ++ back ∧
      (∀ c ∈ front, c.toNat ∈ whiteSpace) ∧ (∀ c ∈ back, c.toNat ∈ whiteSpace)) ∧
    (∀ c, (folderName "" n t).data.head? = some c → c.toNat ∉ whiteSpace) ∧
    (∀ c, (folderName "" n t).data.getLast? = some c → c.toNat ∉ whiteSpace) ∧
    (∀ c ∈ (folderName "" n t).data, c ∉ InvalidFileNameChars) ∧
    folderName "" 7 "A/B:C" = "7 - A_B_C" ∧
    folderName "" 7 "A/B:C  " = "7 - A_B_C" ∧
    folderName "" 7 "A/B:C\t" = "7 - A_B_C_" := by
  have hu : '_' ∉ InvalidFileNameChars := by decide
  have hdata : (folderName "" n t).data = trimSpace (specReplaced n t) := by
    unfold folderName specReplaced
    simp only [ne_eq, not_true_eq_false, if_false]
    exact normalizeFileName_data _
  obtain ⟨front, back, h1, h2, h3, h4, h5⟩ := trimSpace_spec (specReplaced n t)
  have hns : ∀ c, isSpace c = false → c.toNat ∉ whiteSpace := fun c hc hm => by
    rw [(isSpace_iff c).2 hm] at hc
    exact Bool.noConfusion hc
  refine ⟨?_, ⟨front, back, ?_, fun c hc => (isSpace_iff c).1 (h2 c hc),
    fun c hc => (isSpace_iff c).1 (h3 c hc)⟩, ?_, ?_, ?_, by decide, by decide, by decide⟩
  · by_cases ho : override = ""
    · subst ho
      rw [if_pos rfl]
      have : (specFolderName n t).data = specTrim (specReplaced n t) := rfl
      apply String.ext
      rw [hdata, this, trimSpace_eq_specTrim]
    · unfold folderName
      simp only [ho, ne_eq, not_false_eq_true, if_true, if_false]
  · rw [hdata]; exact h1
  · rw [hdata]; exact fun c hc => hns c (h4 c hc)
  · rw [hdata]; exact fun c hc => hns c (h5 c hc)
  · intro c hc hmem
    rw [hdata] at hc
    have hsub : c ∈ specReplaced n t := by
      rw [h1]
      exact List.mem_append_left _ (List.mem_append_right _ hc)
    unfold specReplaced at hsub
    rw [List.mem_map] at hsub
    obtain ⟨x, _, hx⟩ := hsub
    by_cases hxi : x ∈ InvalidFileNameChars
    · rw [if_pos hxi] at hx
      exact hu (hx ▸ hmem)
    · rw [if_neg hxi] at hx
      exact hxi (hx ▸ hmem)

/-! ## Download -/

theorem Download_err (e : DownloadEnv) : (Download e).err.isSome = e.fails := by
  unfold Download DownloadEnv.fails
  cases hc : e.createOk <;> cases hg : e.get <;> cases hk : e.copyOk <;> simp

theorem Download_file (e : DownloadEnv) :
    (Download e).file = if e.createOk = false then none else some e.written := by
  unfold Download DownloadEnv.written
  cases hc : e.createOk <;> cases hg : e.get <;> cases hk : e.copyOk <;> simp

theorem Download_nil (e : DownloadEnv) (h : (Download e).err = none) :
    Download e = ⟨none, some e.written⟩ := by
  have hf := Download_file e
  have he := Download_err e
  rw [h] at he
  have hc : e.createOk = true := by
    unfold DownloadEnv.fails at he
    cases hc : e.createOk
    · simp [hc] at he
    · rfl
  rw [hc] at hf
  cases hD : Download e with
  | mk err file =>
    rw [hD] at h hf
    simp only at h hf
    rw [h, hf]
    simp

/-- C6, amended. `Download` returns an error exactly when the destination
file cannot be created, the request fails in transport, or the copy of the
body fails. The status code of the response plays no part: for every status
code, when the file can be created and the copy succeeds, `Download` returns
`nil` and the file holds the body of the response. In every case the file is
absent from the result when it could not be created, and otherwise holds what
has been copied: nothing after a transport failure, the bytes copied so far
after a failure of the copy. -/
theorem C6_download_errors (env : DownloadEnv) :
    ((Download env).err ≠ none ↔
      env.createOk = false ∨ env.get = .transportError ∨ env.copyOk = false) ∧
    (∀ status body, env.createOk = true → env.get = .response status body →
      env.copyOk = true → Download env = ⟨none, some body⟩) ∧
    (env.createOk = false → (Download env).file = none) ∧
    (env.createOk = true → env.get = .transportError → (Download env).file = some []) ∧
    (∀ status body, env.createOk = true → env.get = .response status body →
      env.copyOk = false → (Download env).file = some (body.take env.copied)) := by
  unfold Download
  refine ⟨?_, ?_, ?_, ?_, ?_⟩
  · cases hc : env.createOk <;> cases hg : env.get <;> cases hk : env.copyOk <;> simp
  · intro status body hc hg hk
    simp [hc, hg, hk]
  · intro hc
    simp [hc]
  · intro hc hg
    simp [hc, hg]
  · intro status body hc hg hk
    simp [hc, hg, hk]

/-- C6, counterexample. The server answers `404` with a body of three bytes,
the file can be created and the copy succeeds: `Download` returns `nil` and
the body of the error response is the content of the file. -/
theorem C6_counterexample :
    Download ⟨true, .response 404 [0x34, 0x30, 0x34], true, 0⟩ =
      ⟨none, some [0x34, 0x30, 0x34]⟩ := by
  decide

/-! ## The orchestrator -/

theorem foldl_append_proj {β : Type} (π : World → List β) (f : World → Sticker → World)
    (g : Sticker → List β) (h : ∀ w s, π (f w s) = π w ++ g s) :
    ∀ (l : List Sticker) (w : World), π (l.foldl f w) = π w ++ l.flatMap g := by
  intro l
  induction l with
  | nil => intro w; simp
  | cons s l ih =>
    intro w
    rw [List.foldl_cons, ih, h, List.flatMap_cons, List.append_assoc]

theorem foldl_preserves {β : Type} (π : World → β) (f : World → Sticker → World)
    (h : ∀ w s, π (f w s) = π w) :
    ∀ (l : List Sticker) (w : World), π (l.foldl f w) = π w := by
  intro l
  induction l with
  | nil => intro w; rfl
  | cons s l ih =>
    intro w
    rw [List.foldl_cons, ih, h]

theorem getFile_setFile (fs : List ((Dir × Int) × List Byte)) (k : Dir × Int) (c : List Byte) :
    getFile (setFile fs k c) k = some c := by
  induction fs with
  | nil => simp [setFile, getFile]
  | cons x fs ih =>
    obtain ⟨k2, c2⟩ := x
    unfold setFile
    by_cases h : k2 = k
    · simp [h, getFile]
    · simp [h, getFile, ih]

theorem setFile_absent (fs : List ((Dir × Int) × List Byte)) (k : Dir × Int) (c : List Byte)
    (h : k ∉ fs.map Prod.fst) : setFile fs k c = fs ++ [(k, c)] := by
  induction fs with
  | nil => rfl
  | cons x fs ih =>
    obtain ⟨k2, c2⟩ := x
    simp only [List.map_cons, List.mem_cons, not_or] at h
    unfold setFile
    rw [if_neg (fun he => h.1 he.symm), ih h.2, List.cons_append]

theorem mkdirAll_actions (env : Env) (w : World) (d : Dir) :
    (World.mkdirAll env w d).actions = w.actions ++ [.mkdirAll d] := by
  unfold World.mkdirAll; simp only [World.act]; split_ifs <;> rfl

theorem mkdirAll_panicked (env : Env) (w : World) (d : Dir) :
    (World.mkdirAll env w d).panicked = w.panicked := by
  unfold World.mkdirAll; simp only [World.act]; split_ifs <;> rfl

theorem mkdirAll_stuck (env : Env) (w : World) (d : Dir) :
    (World.mkdirAll env w d).stuck = w.stuck := by
  unfold World.mkdirAll; simp only [World.act]; split_ifs <;> rfl

theorem mkdirAll_stdout (env : Env) (w : World) (d : Dir) :
    (World.mkdirAll env w d).stdout = w.stdout := by
  unfold World.mkdirAll; simp only [World.act]; split_ifs <;> rfl

theorem mkdirAll_stderr (env : Env) (w : World) (d : Dir) :
    (World.mkdirAll env w d).stderr = w.stderr := by
  unfold World.mkdirAll; simp only [World.act]; split_ifs <;> rfl

theorem mkdirAll_files (env : Env) (w : World) (d : Dir) :
    (World.mkdirAll env w d).folder.files = w.folder.files := by
  unfold World.mkdirAll; simp only [World.act]; split_ifs <;> rfl

theorem staticItem_eq (env : Env) (w : World) (s : Sticker) :
    staticItem env w s =
      { stdout := w.stdout ++ staticReport env s,
        stderr := w.stderr ++
          (match (Download (env.download .static s.Id)).err with
           | some e => [Failure.download .static s.Id e]
           | none => []),
        actions := w.actions ++ [.download .static s.Id],
        folder := { w.folder with
          files := if (env.download .static s.Id).createOk = false then w.folder.files
            else setFile w.folder.files (.PNG, s.Id) (env.download .static s.Id).written },
        panicked := w.panicked,
        stuck := w.stuck } := by
  have hf := Download_file (env.download .static s.Id)
  have he := Download_err (env.download .static s.Id)
  unfold staticItem World.download staticReport
  rw [← he]
  cases herr : (Download (env.download .static s.Id)).err <;>
    cases hc : (env.download .static s.Id).createOk <;>
    simp [hc] at hf <;>
    simp [herr, hf, hc, World.println, World.print, World.eprintln, World.act, World.writeFile,
      Kind.dir]

theorem gifItem_proj (env : Env) (w : World) (s : Sticker) :
    (gifItem env w s).actions = w.actions ++ [.apng2gif s.Id] ∧
      (gifItem env w s).panicked = w.panicked ∧ (gifItem env w s).stuck = w.stuck := by
  unfold gifItem
  cases hw : (env.apng2gif s.Id).written <;> cases hk : (env.apng2gif s.Id).ok <;>
    simp [hw, hk, World.println, World.print, World.eprintln, World.act, World.writeFile]

theorem animatedItem_of_stuck (fuel : Nat) (env : Env) (w : World) (s : Sticker)
    (h : w.stuck = true) : animatedItem fuel env w s = w := by
  unfold animatedItem
  rw [if_pos h]

theorem foldl_animatedItem_of_stuck (fuel : Nat) (env : Env) (l : List Sticker) :
    ∀ w : World, w.stuck = true → l.foldl (animatedItem fuel env) w = w := by
  induction l with
  | nil => intro w _; rfl
  | cons s l ih =>
    intro w h
    rw [List.foldl_cons, animatedItem_of_stuck fuel env w s h]
    exact ih w h

/-- The loop body for the animated asset when the download fails: no call of
`LoopAPNG`. -/
theorem animatedItem_download_fails (fuel : Nat) (env : Env) (w : World) (s : Sticker)
    (hs : w.stuck = false) (e : DownloadError)
    (he : (Download (env.download .animated s.Id)).err = some e) :
    (animatedItem fuel env w s).actions = w.actions ++ [.download .animated s.Id] ∧
      (animatedItem fuel env w s).panicked = w.panicked ∧
      (animatedItem fuel env w s).stuck = false := by
  unfold animatedItem World.download
  rw [if_neg (by rw [hs]; decide)]
  cases hf : (Download (env.download .animated s.Id)).file <;>
    simp [he, hf, hs, World.println, World.print, World.eprintln, World.act, World.writeFile]

/-- The loop body for the animated asset when the download succeeds with the
body `body`: `LoopAPNG` is called on that body, and the run goes on exactly
when the call returns. -/
theorem animatedItem_download_ok (fuel : Nat) (env : Env) (w : World) (s : Sticker)
    (hs : w.stuck = false) (body : List Byte)
    (hd : Download (env.download .animated s.Id) = ⟨none, some body⟩) :
    (animatedItem fuel env w s).actions =
        w.actions ++ [.download .animated s.Id, .loopAPNG s.Id] ∧
      (animatedItem fuel env w s).panicked = w.panicked ∧
      (animatedItem fuel env w s).stuck = (LoopAPNG fuel body).isNone := by
  unfold animatedItem World.download World.loopAPNG
  rw [if_neg (by rw [hs]; decide)]
  simp only [hd, World.act, World.print, World.writeFile, Kind.dir, getFile_setFile]
  cases hl : LoopAPNG fuel body with
  | none => simp [hs]
  | some o =>
    obtain ⟨err, data⟩ := o
    cases err with
    | none => simp [hs, World.println, World.print]
    | some e =>
      simp only [Option.isNone_some]
      split_ifs <;> simp [hs, World.println, World.print, World.eprintln]

theorem animatedItem_returns (fuel : Nat) (env : Env) (w : World) (s : Sticker)
    (hs : w.stuck = false) (hr : patchReturns fuel env s = true) :
    (animatedItem fuel env w s).actions = w.actions ++ animatedSteps env s ∧
      (animatedItem fuel env w s).panicked = w.panicked ∧
      (animatedItem fuel env w s).stuck = false := by
  unfold animatedSteps
  cases he : (Download (env.download .animated s.Id)).err with
  | some e =>
    simp only [reduceCtorEq, if_false]
    exact animatedItem_download_fails fuel env w s hs e he
  | none =>
    have hd := Download_nil _ he
    obtain ⟨h1, h2, h3⟩ := animatedItem_download_ok fuel env w s hs _ hd
    unfold patchReturns at hr
    rw [hd] at hr
    simp only at hr
    simp only [if_true]
    refine ⟨h1, h2, ?_⟩
    rw [h3]
    cases hl : LoopAPNG fuel (env.download .animated s.Id).written with
    | none => rw [hl] at hr; simp at hr
    | some o => rfl

theorem foldl_animatedItem_returns (fuel : Nat) (env : Env) (l : List Sticker) :
    ∀ w : World, w.stuck = false → (∀ s ∈ l, patchReturns fuel env s = true) →
      (l.foldl (animatedItem fuel env) w).actions = w.actions ++ l.flatMap (animatedSteps env) ∧
      (l.foldl (animatedItem fuel env) w).panicked = w.panicked ∧
      (l.foldl (animatedItem fuel env) w).stuck = false := by
  induction l with
  | nil => intro w hs _; simp [hs]
  | cons s l ih =>
    intro w hs hr
    obtain ⟨h1, h2, h3⟩ := animatedItem_returns fuel env w s hs (hr s (List.mem_cons_self _ _))
    obtain ⟨i1, i2, i3⟩ := ih (animatedItem fuel env w s) h3
      (fun x hx => hr x (List.mem_cons_of_mem _ hx))
    rw [List.foldl_cons]
    refine ⟨?_, ?_, i3⟩
    · rw [i1, h1, List.flatMap_cons, List.append_assoc]
    · rw [i2, h2]

theorem flatMap_single {α β : Type} (l : List α) (f : α → β) :
    l.flatMap (fun a => [f a]) = l.map f := by
  induction l with
  | nil => rfl
  | cons a l ih => simp [List.flatMap_cons, ih]

theorem staticPass_proj (env : Env) (pkg : StickerPackage) (w : World) :
    (staticPass env pkg w).actions = w.actions ++ staticActions pkg ∧
      (staticPass env pkg w).panicked = w.panicked ∧
      (staticPass env pkg w).stuck = w.stuck := by
  unfold staticPass staticActions
  refine ⟨?_, ?_, ?_⟩
  · rw [foldl_append_proj World.actions (staticItem env)
      (fun s => [Action.download .static s.Id]) (fun w s => by rw [staticItem_eq]),
      mkdirAll_actions, flatMap_single]
    simp
  · rw [foldl_preserves World.panicked (staticItem env) (fun w s => by rw [staticItem_eq]),
      mkdirAll_panicked]
  · rw [foldl_preserves World.stuck (staticItem env) (fun w s => by rw [staticItem_eq]),
      mkdirAll_stuck]

theorem gifPass_proj (env : Env) (pkg : StickerPackage) (w : World) :
    (gifPass env pkg w).actions = w.actions ++ gifActions pkg ∧
      (gifPass env pkg w).panicked = w.panicked ∧
      (gifPass env pkg w).stuck = w.stuck := by
  unfold gifPass gifActions
  refine ⟨?_, ?_, ?_⟩
  · rw [foldl_append_proj World.actions (gifItem env)
      (fun s => [Action.apng2gif s.Id]) (fun w s => (gifItem_proj env w s).1),
      mkdirAll_actions, flatMap_single]
    simp
  · rw [foldl_preserves World.panicked (gifItem env) (fun w s => (gifItem_proj env w s).2.1),
      mkdirAll_panicked]
  · rw [foldl_preserves World.stuck (gifItem env) (fun w s => (gifItem_proj env w s).2.2),
      mkdirAll_stuck]

theorem animatedPass_returns (fuel : Nat) (env : Env) (pkg : StickerPackage) (w : World)
    (hs : w.stuck = false) (hr : ∀ s ∈ pkg.Stickers, patchReturns fuel env s = true) :
    (animatedPass fuel env pkg w).actions = w.actions ++ animatedActions env pkg ∧
      (animatedPass fuel env pkg w).panicked = w.panicked ∧
      (animatedPass fuel env pkg w).stuck = false := by
  unfold animatedPass animatedActions
  obtain ⟨h1, h2, h3⟩ := foldl_animatedItem_returns fuel env pkg.Stickers
    (World.mkdirAll env w .APNG) (by rw [mkdirAll_stuck]; exact hs) hr
  refine ⟨?_, ?_, h3⟩
  · rw [h1, mkdirAll_actions]
    simp
  · rw [h2, mkdirAll_panicked]

/-- The tail of `main` behind the animated pass: conversion, removal, index
generation. -/
theorem mainWith_tail (env : Env) (args : AppArgs) (pkg : StickerPackage) (w : World)
    (hp : w.panicked = false) :
    (let w2 := if args.GIF = true then gifPass env pkg w else w
     let w3 := if args.GIF = true ∧ args.APNG = false then cleanup env w2 else w2
     if w3.panicked = true then w3 else generateIndex env args w3).actions =
      w.actions ++ (if args.GIF = true then gifActions pkg else []) ++
        (if args.GIF = true ∧ args.APNG = false then
          Action.removeAll .APNG ::
            (if env.removeAllOk = false then [] else indexActions env args)
         else indexActions env args) := by
  obtain ⟨g1, g2, -⟩ := gifPass_proj env pkg w
  cases hA : args.APNG <;> cases hG : args.GIF <;>
    cases hR : env.removeAllOk <;> cases hI : env.createIndexOk <;>
    simp [g1, g2, hp, hA, hG, hR, hI, cleanup, generateIndex, indexActions, World.println,
      World.print, World.act]

theorem mainWith_actions (fuel : Nat) (env : Env) (appArgs : AppArgs) (pkg : StickerPackage)
    (folder : Folder) (hr : ∀ s ∈ pkg.Stickers, patchReturns fuel env s = true) :
    (mainWith fuel env appArgs pkg folder).actions =
      runActions env (effectiveArgs appArgs pkg) pkg := by
  unfold mainWith runActions
  simp only []
  generalize effectiveArgs appArgs pkg = args
  obtain ⟨w1, hw1⟩ : ∃ w1, w1 = (World.start folder).println
    (folderName args.FolderName pkg.PackageId pkg.titleEn) := ⟨_, rfl⟩
  rw [← hw1]
  have a1 : w1.actions = [] ∧ w1.panicked = false ∧ w1.stuck = false := by
    rw [hw1]; exact ⟨rfl, rfl, rfl⟩
  obtain ⟨w2, hw2⟩ : ∃ w2, w2 = if args.PNG = true then staticPass env pkg w1 else w1 :=
    ⟨_, rfl⟩
  rw [← hw2]
  have a2 : w2.actions = (if args.PNG = true then staticActions pkg else []) ∧
      w2.panicked = false ∧ w2.stuck = false := by
    obtain ⟨s1, s2, s3⟩ := staticPass_proj env pkg w1
    rw [hw2]
    split_ifs
    · exact ⟨by rw [s1, a1.1, List.nil_append], by rw [s2, a1.2.1], by rw [s3, a1.2.2]⟩
    · exact a1
  obtain ⟨w3, hw3⟩ : ∃ w3, w3 = if args.APNG = true ∨ args.GIF = true then
    animatedPass fuel env pkg w2 else w2 := ⟨_, rfl⟩
  rw [← hw3]
  have a3 : w3.actions = w2.actions ++
      (if args.APNG = true ∨ args.GIF = true then animatedActions env pkg else []) ∧
      w3.panicked = false ∧ w3.stuck = false := by
    obtain ⟨s1, s2, s3⟩ := animatedPass_returns fuel env pkg w2 a2.2.2 hr
    rw [hw3]
    split_ifs
    · exact ⟨s1, by rw [s2, a2.2.1], s3⟩
    · exact ⟨by simp, a2.2.1, a2.2.2⟩
  rw [if_neg (by rw [a3.2.2]; decide)]
  have ht := mainWith_tail env args pkg w3 a3.2.1
  simp only [] at ht
  rw [ht, a3.1, a2.1]

theorem main_actions (fuel : Nat) (env : Env) (appArgs : AppArgs) (pkg : StickerPackage)
    (folder : Folder) (hmeta : env.getJson = some pkg)
    (hr : ∀ s ∈ pkg.Stickers, patchReturns fuel env s = true) :
    (main fuel env appArgs folder).actions = runActions env (effectiveArgs appArgs pkg) pkg := by
  unfold main
  rw [hmeta]
  exact mainWith_actions fuel env appArgs pkg folder hr

/-- C2, amended. In a run that has fetched the metadata and in which every
call of `LoopAPNG` returns, whatever the outcomes of the downloads and of the
conversions are and whatever `LoopAPNG` returns, the actions are: for each
enabled kind, in the order static, animated, converted, the step of every
sticker of the package in list order (for the animated kind the download,
followed by the patch when the download returned `nil`); then the removal of
the directory `APNG` when conversion is on and retention is off; then the
index generation, unless that removal has failed, which ends the run. -/
theorem C2_every_step_performed (fuel : Nat) (env : Env) (appArgs : AppArgs)
    (pkg : StickerPackage) (folder : Folder) (hmeta : env.getJson = some pkg)
    (hret : ∀ s ∈ pkg.Stickers, patchReturns fuel env s = true) :
    (main fuel env appArgs folder).actions =
      (if (effectiveArgs appArgs pkg).PNG = true then
        Action.mkdirAll .PNG :: pkg.Stickers.map (fun s => Action.download .static s.Id)
       else []) ++
      (if (effectiveArgs appArgs pkg).APNG = true ∨ (effectiveArgs appArgs pkg).GIF = true then
        Action.mkdirAll .APNG :: pkg.Stickers.flatMap (animatedSteps env)
       else []) ++
      (if (effectiveArgs appArgs pkg).GIF = true then
        Action.mkdirAll .GIF :: pkg.Stickers.map (fun s => Action.apng2gif s.Id)
       else []) ++
      (if (effectiveArgs appArgs pkg).GIF = true ∧ (effectiveArgs appArgs pkg).APNG = false then
        Action.removeAll .APNG ::
          (if env.removeAllOk = false then [] else indexActions env (effectiveArgs appArgs pkg))
       else indexActions env (effectiveArgs appArgs pkg)) ∧
    Action.createIndex ∈ indexActions env (effectiveArgs appArgs pkg) := by
  constructor
  · rw [main_actions fuel env appArgs pkg folder hmeta hret]
    rfl
  · unfold indexActions
    split_ifs <;> simp

/-- C2, witness: the run on the package 42 with animation and all three kinds
enabled, in which both downloads of sticker 1 fail and the converter fails on
sticker 1. Sticker 2 is still downloaded, patched and converted, and the index
is generated. -/
theorem C2_witness :
    (sampleEnv true).getJson = some (samplePackage true) ∧
    (∀ s ∈ (samplePackage true).Stickers, patchReturns 3 (sampleEnv true) s = true) ∧
    (main 3 (sampleEnv true) ⟨42, true, true, true, ""⟩ emptyFolder).actions =
      [.mkdirAll .PNG, .download .static 1, .download .static 2,
       .mkdirAll .APNG, .download .animated 1, .download .animated 2, .loopAPNG 2,
       .mkdirAll .GIF, .apng2gif 1, .apng2gif 2,
       .createIndex, .executeTemplate true true true] := by
  refine ⟨rfl, by decide, ?_⟩
  have h := (C2_every_step_performed 3 (sampleEnv true) ⟨42, true, true, true, ""⟩
    (samplePackage true) emptyFolder rfl (by decide)).1
  rw [h]
  decide

/-- C2, counterexample. The package 42 with animation, conversion on and
retention off, in an environment in which `os.RemoveAll` fails: every step of
every sticker is performed and every call of `LoopAPNG` returns, but the run
ends in the panic of `check(err)` behind the removal, and the index generation
is not attempted. -/
theorem C2_counterexample :
    removalFailsEnv.getJson = some (samplePackage true) ∧
    (∀ s ∈ (samplePackage true).Stickers, patchReturns 3 removalFailsEnv s = true) ∧
    (main 3 removalFailsEnv ⟨42, true, false, true, ""⟩ emptyFolder).actions =
      [.mkdirAll .PNG, .download .static 1, .download .static 2,
       .mkdirAll .APNG, .download .animated 1, .download .animated 2, .loopAPNG 2,
       .mkdirAll .GIF, .apng2gif 1, .apng2gif 2, .removeAll .APNG] ∧
    Action.createIndex ∉ (main 3 removalFailsEnv ⟨42, true, false, true, ""⟩ emptyFolder).actions ∧
    (main 3 removalFailsEnv ⟨42, true, false, true, ""⟩ emptyFolder).panicked = true := by
  decide

/-! ## The removal of the directory APNG -/

theorem removeAll_not_mem_steps (env : Env) (pkg : StickerPackage) (d : Dir) :
    Action.removeAll d ∉ staticActions pkg ∧ Action.removeAll d ∉ animatedActions env pkg ∧
      Action.removeAll d ∉ gifActions pkg ∧
      ∀ args, Action.removeAll d ∉ indexActions env args := by
  refine ⟨?_, ?_, ?_, ?_⟩
  · simp [staticActions]
  · simp only [animatedActions, List.mem_cons, List.mem_flatMap, reduceCtorEq, false_or,
      not_exists, not_and]
    intro s _
    unfold animatedSteps
    split_ifs <;> simp
  · simp [gifActions]
  · intro args
    unfold indexActions
    split_ifs <;> simp

theorem createIndex_not_mem_steps (env : Env) (pkg : StickerPackage) :
    Action.createIndex ∉ staticActions pkg ∧ Action.createIndex ∉ animatedActions env pkg ∧
      Action.createIndex ∉ gifActions pkg := by
  refine ⟨?_, ?_, ?_⟩
  · simp [staticActions]
  · simp only [animatedActions, List.mem_cons, List.mem_flatMap, reduceCtorEq, false_or,
      not_exists, not_and]
    intro s _
    unfold animatedSteps
    split_ifs <;> simp
  · simp [gifActions]

theorem effectiveArgs_init (flags : AppArgs) (lookPathOk : Bool) (pkg : StickerPackage) :
    ((effectiveArgs (init flags lookPathOk) pkg).GIF = true ∧
        (effectiveArgs (init flags lookPathOk) pkg).APNG = false) ↔
      (flags.GIF = true ∧ lookPathOk = true ∧ pkg.HasAnimation = true ∧ flags.APNG = false) := by
  obtain ⟨pid, png, apng, gif, fname⟩ := flags
  obtain ⟨pkgId, title, stickers, anim⟩ := pkg
  unfold effectiveArgs init
  cases gif <;> cases lookPathOk <;> cases anim <;> cases apng <;> simp

theorem mainWith_folder_cleaned (fuel : Nat) (env : Env) (appArgs : AppArgs)
    (pkg : StickerPackage) (folder : Folder)
    (hr : ∀ s ∈ pkg.Stickers, patchReturns fuel env s = true)
    (hc : (effectiveArgs appArgs pkg).GIF = true ∧ (effectiveArgs appArgs pkg).APNG = false)
    (hrm : env.removeAllOk = true) :
    Dir.APNG ∉ (mainWith fuel env appArgs pkg folder).folder.dirs ∧
      (mainWith fuel env appArgs pkg folder).dirContent .APNG = [] := by
  unfold mainWith
  simp only [hc, and_self, if_true, or_true]
  obtain ⟨w2, hw2⟩ : ∃ w2, w2 = (if (effectiveArgs appArgs pkg).PNG = true then
    staticPass env pkg ((World.start folder).println (folderName
      (effectiveArgs appArgs pkg).FolderName pkg.PackageId pkg.titleEn))
    else (World.start folder).println (folderName
      (effectiveArgs appArgs pkg).FolderName pkg.PackageId pkg.titleEn)) := ⟨_, rfl⟩
  rw [← hw2]
  have hs2 : w2.stuck = false := by
    rw [hw2]
    split_ifs
    · rw [(staticPass_proj env pkg _).2.2]; rfl
    · rfl
  have hs3 := (animatedPass_returns fuel env pkg w2 hs2 hr).2.2
  rw [if_neg (by rw [hs3]; decide)]
  unfold World.dirContent
  simp only [cleanup, hrm, Bool.true_eq_false, if_false, World.println, World.print, World.act,
    generateIndex]
  split_ifs <;> simp [List.mem_filter, List.filter_filter]

/-- The removal of the directory `APNG`. In a run that has fetched the
metadata and in which every call of `LoopAPNG` returns, `os.RemoveAll` is
called, on the directory `APNG` and on no other, exactly when the flag `GIF` is on, the
converter has been found, the package has animation and the flag `APNG` is
off. In that case the call comes after the converter has been run on every
sticker of the package, no run of the converter and no other removal follows
it, the index generation does not precede it and, when the removal succeeds,
follows it, and the directory `APNG` and its files are gone at the end. -/
theorem removal_when_due (fuel : Nat) (env : Env) (flags : AppArgs) (lookPathOk : Bool)
    (pkg : StickerPackage) (folder : Folder) (hmeta : env.getJson = some pkg)
    (hr : ∀ s ∈ pkg.Stickers, patchReturns fuel env s = true) :
    (∀ d, Action.removeAll d ∈ (main fuel env (init flags lookPathOk) folder).actions ↔
      (d = Dir.APNG ∧ flags.GIF = true ∧ lookPathOk = true ∧ pkg.HasAnimation = true ∧
        flags.APNG = false)) ∧
    ((flags.GIF = true ∧ lookPathOk = true ∧ pkg.HasAnimation = true ∧ flags.APNG = false) →
      ∃ pre post, (main fuel env (init flags lookPathOk) folder).actions =
          pre ++ Action.removeAll .APNG :: post ∧
        (∀ s ∈ pkg.Stickers, Action.apng2gif s.Id ∈ pre) ∧
        (∀ d, Action.removeAll d ∉ pre ∧ Action.removeAll d ∉ post) ∧
        Action.createIndex ∉ pre ∧
        (∀ id, Action.apng2gif id ∉ post) ∧
        (env.removeAllOk = true →
          Action.createIndex ∈ post ∧
          Dir.APNG ∉ (main fuel env (init flags lookPathOk) folder).folder.dirs ∧
          (main fuel env (init flags lookPathOk) folder).dirContent .APNG = [])) := by
  have hacts := main_actions fuel env (init flags lookPathOk) pkg folder hmeta hr
  have hiff := effectiveArgs_init flags lookPathOk pkg
  obtain ⟨args, hargs⟩ : ∃ args, args = effectiveArgs (init flags lookPathOk) pkg := ⟨_, rfl⟩
  rw [← hargs] at hacts hiff
  constructor
  · intro d
    obtain ⟨n1, n2, n3, n4⟩ := removeAll_not_mem_steps env pkg d
    rw [hacts, ← hiff]
    unfold runActions
    have m1 : Action.removeAll d ∉ (if args.PNG = true then staticActions pkg else []) := by
      split_ifs
      · exact n1
      · simp
    have m2 : Action.removeAll d ∉
        (if args.APNG = true ∨ args.GIF = true then animatedActions env pkg else []) := by
      split_ifs
      · exact n2
      · simp
    have m3 : Action.removeAll d ∉ (if args.GIF = true then gifActions pkg else []) := by
      split_ifs
      · exact n3
      · simp
    have m4 : Action.removeAll d ∉
        (if env.removeAllOk = false then [] else indexActions env args) := by
      split_ifs
      · simp
      · exact n4 args
    by_cases hc : args.GIF = true ∧ args.APNG = false
    · rw [if_pos hc]
      simp only [List.mem_append, List.mem_cons, m1, m2, m3, m4, Action.removeAll.injEq,
        false_or, or_false]
      exact ⟨fun h => ⟨h, hc⟩, fun h => h.1⟩
    · rw [if_neg hc]
      simp only [List.mem_append, m1, m2, m3, n4 args, or_self, false_iff, not_and]
      exact fun _ hg ha => hc ⟨hg, ha⟩
  · intro hcond
    have hc := hiff.2 hcond
    obtain ⟨c1, c2, c3⟩ := createIndex_not_mem_steps env pkg
    refine ⟨(if args.PNG = true then staticActions pkg else []) ++ animatedActions env pkg ++
        gifActions pkg,
      if env.removeAllOk = false then [] else indexActions env args, ?_, ?_, ?_, ?_, ?_, ?_⟩
    · rw [hacts]
      unfold runActions
      simp only [hc, and_self, if_true, or_true, List.append_assoc]
    · intro s hs
      simp only [List.mem_append, gifActions, List.mem_cons, List.mem_map]
      exact Or.inr (Or.inr ⟨s, hs, rfl⟩)
    · intro d
      obtain ⟨n1, n2, n3, n4⟩ := removeAll_not_mem_steps env pkg d
      constructor
      · simp only [List.mem_append, not_or]
        refine ⟨⟨?_, n2⟩, n3⟩
        split_ifs
        · exact n1
        · simp
      · split_ifs
        · simp
        · exact n4 args
    · simp only [List.mem_append, not_or]
      refine ⟨⟨?_, c2⟩, c3⟩
      split_ifs
      · exact c1
      · simp
    · intro id
      unfold indexActions
      split_ifs <;> simp
    · intro hrm
      refine ⟨?_, ?_⟩
      · simp only [hrm, Bool.true_eq_false, if_false]
        unfold indexActions
        split_ifs <;> simp
      · have hf := mainWith_folder_cleaned fuel env (init flags lookPathOk) pkg folder hr
          (by rw [← hargs]; exact hc) hrm
        unfold main
        rw [hmeta]
        exact hf

/-! ## A run that is stuck in LoopAPNG -/

theorem animatedPass_loopingEnv (fuel : Nat) (w : World) (hs : w.stuck = false) :
    (animatedPass fuel loopingEnv (samplePackage true) w).actions =
        w.actions ++ [.mkdirAll .APNG, .download .animated 1, .loopAPNG 1] ∧
      (animatedPass fuel loopingEnv (samplePackage true) w).stuck = true := by
  have hd : Download (loopingEnv.download .animated (1 : Int)) = ⟨none, some loopingFile⟩ := by
    decide
  obtain ⟨h1, -, h3⟩ := animatedItem_download_ok fuel loopingEnv
    (World.mkdirAll loopingEnv w .APNG) ⟨1, 320, 240⟩ (by rw [mkdirAll_stuck]; exact hs)
    loopingFile hd
  rw [LoopAPNG_loopingFile] at h3
  have hfold : animatedPass fuel loopingEnv (samplePackage true) w =
      animatedItem fuel loopingEnv (World.mkdirAll loopingEnv w .APNG) ⟨1, 320, 240⟩ := by
    unfold animatedPass
    show List.foldl _ _ [(⟨1, 320, 240⟩ : Sticker), ⟨2, 320, 240⟩] = _
    rw [List.foldl_cons, List.foldl_cons, List.foldl_nil,
      animatedItem_of_stuck fuel loopingEnv _ ⟨2, 320, 240⟩ h3]
  rw [hfold, h1, mkdirAll_actions]
  exact ⟨by simp, h3⟩

/-- C8, the run on the failing input. The package 42 with animation,
conversion on (flag `GIF`, converter found) and retention off (flag `APNG`
off), where the animated asset of sticker 1 is downloaded with the body
`loopingFile`: the call of `LoopAPNG` on that file does not return, whatever
the bound on its iterations. The run is stuck after three actions: the
converter is run on no sticker and `os.RemoveAll` is never called. -/
theorem C8_stuck_run_never_removes (fuel : Nat) :
    loopingEnv.getJson = some (samplePackage true) ∧
    (samplePackage true).HasAnimation = true ∧
    (main fuel loopingEnv (init ⟨42, false, false, true, ""⟩ true) emptyFolder).stuck = true ∧
    (main fuel loopingEnv (init ⟨42, false, false, true, ""⟩ true) emptyFolder).actions =
      [.mkdirAll .APNG, .download .animated 1, .loopAPNG 1] ∧
    Action.removeAll .APNG ∉
      (main fuel loopingEnv (init ⟨42, false, false, true, ""⟩ true) emptyFolder).actions := by
  have hmain : main fuel loopingEnv (init ⟨42, false, false, true, ""⟩ true) emptyFolder =
      animatedPass fuel loopingEnv (samplePackage true)
        ((World.start emptyFolder).println
          (folderName "" (samplePackage true).PackageId (samplePackage true).titleEn)) := by
    obtain ⟨_, h2⟩ := animatedPass_loopingEnv fuel
      ((World.start emptyFolder).println
        (folderName "" (samplePackage true).PackageId (samplePackage true).titleEn)) rfl
    have hargs : effectiveArgs (init ⟨42, false, false, true, ""⟩ true) (samplePackage true) =
        ⟨42, false, false, true, ""⟩ := rfl
    have hj : loopingEnv.getJson = some (samplePackage true) := rfl
    unfold main
    simp only [hj]
    unfold mainWith
    simp only [hargs, Bool.false_eq_true, if_false, or_true, if_true, false_or]
    rw [if_pos h2]
  obtain ⟨h1, h2⟩ := animatedPass_loopingEnv fuel
    ((World.start emptyFolder).println
      (folderName "" (samplePackage true).PackageId (samplePackage true).titleEn)) rfl
  rw [hmain, h1]
  refine ⟨rfl, rfl, h2, ?_, ?_⟩
  · rfl
  · decide

/-! ## The static pass -/

theorem tag_ne_error (x : String) : ("[PNG] " ++ x ++ " ... " == "Error\n") = false := by
  rw [beq_eq_false_iff_ne]
  intro h
  have h2 := congrArg String.data h
  simp only [String.data_append] at h2
  have h3 := congrArg List.head? h2
  simp at h3

theorem tag_ne_done (x : String) : ("[PNG] " ++ x ++ " ... " == "Done\n") = false := by
  rw [beq_eq_false_iff_ne]
  intro h
  have h2 := congrArg String.data h
  simp only [String.data_append] at h2
  have h3 := congrArg List.head? h2
  simp at h3

theorem count_error_reports (env : Env) (l : List Sticker) :
    (l.flatMap (staticReport env)).count "Error\n" =
      (l.filter (fun s => (env.download .static s.Id).fails)).length := by
  induction l with
  | nil => rfl
  | cons s l ih =>
    rw [List.flatMap_cons, List.count_append, ih, List.filter_cons]
    unfold staticReport
    have hd : ("Done\n" == "Error\n") = false := by decide
    cases hf : (env.download .static s.Id).fails
    · simp [List.count_cons, tag_ne_error, hd]
    · simp [List.count_cons, tag_ne_error]
      omega

theorem count_done_reports (env : Env) (l : List Sticker) :
    (l.flatMap (staticReport env)).count "Done\n" =
      l.length - (l.filter (fun s => (env.download .static s.Id).fails)).length := by
  induction l with
  | nil => rfl
  | cons s l ih =>
    rw [List.flatMap_cons, List.count_append, ih, List.filter_cons]
    unfold staticReport
    have hd : ("Error\n" == "Done\n") = false := by decide
    have hle := List.length_filter_le (fun s => (env.download .static s.Id).fails) l
    cases hf : (env.download .static s.Id).fails
    · simp [List.count_cons, tag_ne_done]
      omega
    · simp [List.count_cons, tag_ne_done, hd]

theorem staticItem_stderr_length (env : Env) (w : World) (s : Sticker) :
    (staticItem env w s).stderr.map (fun _ => ()) =
      w.stderr.map (fun _ => ()) ++
        (if (env.download .static s.Id).fails = true then [()] else []) := by
  rw [staticItem_eq, ← Download_err]
  cases (Download (env.download .static s.Id)).err <;> simp

theorem count_stderr (env : Env) (l : List Sticker) :
    (l.flatMap (fun s => if (env.download .static s.Id).fails = true then [()] else [])).length =
      (l.filter (fun s => (env.download .static s.Id).fails)).length := by
  induction l with
  | nil => rfl
  | cons s l ih =>
    rw [List.flatMap_cons, List.length_append, ih, List.filter_cons]
    cases hf : (env.download .static s.Id).fails
    · simp
    · simp
      omega

theorem dirContent_files_append (w : World) (fs : List ((Dir × Int) × List Byte)) (d : Dir) :
    ({ w with folder := { w.folder with files := w.folder.files ++ fs } } : World).dirContent d =
      w.dirContent d ++ (fs.filter (fun x => x.1.1 = d)).map (fun x => (x.1.2, x.2)) := by
  unfold World.dirContent
  simp

theorem staticItem_dirContent (env : Env) (w : World) (s : Sticker)
    (h : (Dir.PNG, s.Id) ∉ w.folder.files.map Prod.fst) :
    (staticItem env w s).dirContent .PNG =
        w.dirContent .PNG ++
          (if (env.download .static s.Id).createOk = true then
            [(s.Id, (env.download .static s.Id).written)] else []) ∧
      (staticItem env w s).folder.files.map Prod.fst =
        w.folder.files.map Prod.fst ++
          (if (env.download .static s.Id).createOk = true then [(Dir.PNG, s.Id)] else []) := by
  rw [staticItem_eq]
  unfold World.dirContent
  cases hc : (env.download .static s.Id).createOk
  · simp
  · simp [setFile_absent _ _ _ h]

theorem foldl_staticItem_dirContent (env : Env) (l : List Sticker) :
    ∀ w : World, (l.map Sticker.Id).Nodup →
      (∀ s ∈ l, (Dir.PNG, s.Id) ∉ w.folder.files.map Prod.fst) →
      (l.foldl (staticItem env) w).dirContent .PNG =
        w.dirContent .PNG ++
          (l.filter (fun s => (env.download .static s.Id).createOk)).map
            (fun s => (s.Id, (env.download .static s.Id).written)) := by
  induction l with
  | nil => intro w _ _; simp
  | cons s l ih =>
    intro w hnd hfresh
    rw [List.map_cons, List.nodup_cons] at hnd
    obtain ⟨h1, h2⟩ := staticItem_dirContent env w s (hfresh s (List.mem_cons_self _ _))
    rw [List.foldl_cons, ih (staticItem env w s) hnd.2, h1, List.filter_cons]
    · cases hc : (env.download .static s.Id).createOk <;> simp
    · intro x hx
      rw [h2, List.mem_append, not_or]
      refine ⟨hfresh x (List.mem_cons_of_mem _ hx), ?_⟩
      split_ifs
      · rw [List.mem_singleton]
        intro heq
        have hid : x.Id = s.Id := by
          have := congrArg Prod.snd heq
          exact this
        exact hnd.1 (hid ▸ List.mem_map_of_mem Sticker.Id hx)
      · simp

theorem fresh_of_dirContent_nil (w : World) (d : Dir) (h : w.dirContent d = []) (id : Int) :
    (d, id) ∉ w.folder.files.map Prod.fst := by
  intro hm
  rw [List.mem_map] at hm
  obtain ⟨x, hx, hk⟩ := hm
  have : (x.1.2, x.2) ∈ w.dirContent d := by
    unfold World.dirContent
    rw [List.mem_map]
    refine ⟨x, ?_, rfl⟩
    rw [List.mem_filter]
    refine ⟨hx, ?_⟩
    rw [hk]
    simp
  rw [h] at this
  simp at this

/-- C7, amended. For a package with N stickers of distinct ids, K of whose
static downloads fail (in the creation of the file, in transport or in the
copy), the static pass, started with no file in the directory `PNG`, prints
exactly K times `Error` and N-K times `Done` on standard output and K lines on
standard error. It leaves in the directory exactly the files of the stickers
for which `os.Create` has succeeded, in list order: the file of a successful
download holds the body of the response, and the file of a download that has
failed after the creation is there too, empty after a transport failure and
with the bytes copied so far after a failure of the copy. -/
theorem C7_static_pass (env : Env) (pkg : StickerPackage) (w : World)
    (hnodup : (pkg.Stickers.map Sticker.Id).Nodup) (hempty : w.dirContent .PNG = []) :
    ∃ printed, (staticPass env pkg w).stdout = w.stdout ++ printed ∧
      printed.count "Error\n" =
        (pkg.Stickers.filter (fun s => (env.download .static s.Id).fails)).length ∧
      printed.count "Done\n" = pkg.Stickers.length -
        (pkg.Stickers.filter (fun s => (env.download .static s.Id).fails)).length ∧
      (staticPass env pkg w).stderr.length = w.stderr.length +
        (pkg.Stickers.filter (fun s => (env.download .static s.Id).fails)).length ∧
      (staticPass env pkg w).dirContent .PNG =
        (pkg.Stickers.filter (fun s => (env.download .static s.Id).createOk)).map
          (fun s => (s.Id, (env.download .static s.Id).written)) := by
  refine ⟨pkg.Stickers.flatMap (staticReport env), ?_, count_error_reports env _,
    count_done_reports env _, ?_, ?_⟩
  · unfold staticPass
    rw [foldl_append_proj World.stdout (staticItem env) (staticReport env)
      (fun w s => by rw [staticItem_eq]), mkdirAll_stdout]
  · have h := foldl_append_proj (fun w => w.stderr.map (fun _ => ())) (staticItem env) _
      (staticItem_stderr_length env) pkg.Stickers (World.mkdirAll env w .PNG)
    have h2 := congrArg List.length h
    simp only [List.length_map, List.length_append, count_stderr] at h2
    unfold staticPass
    rw [h2, mkdirAll_stderr]
  · unfold staticPass
    have hw : (World.mkdirAll env w .PNG).dirContent .PNG = [] := by
      unfold World.dirContent
      rw [mkdirAll_files]
      exact hempty
    rw [foldl_staticItem_dirContent env pkg.Stickers _ hnodup
      (fun s _ => fresh_of_dirContent_nil _ _ hw s.Id), hw, List.nil_append]

/-- C7, witness: the static pass on the package 42, in which the download of
sticker 1 fails in transport. -/
theorem C7_witness :
    ((samplePackage false).Stickers.map Sticker.Id).Nodup ∧
    (World.start emptyFolder).dirContent .PNG = [] ∧
    ∃ printed,
      (staticPass (sampleEnv false) (samplePackage false) (World.start emptyFolder)).stdout =
        (World.start emptyFolder).stdout ++ printed ∧
      printed.count "Error\n" = ((samplePackage false).Stickers.filter
        (fun s => ((sampleEnv false).download .static s.Id).fails)).length ∧
      printed.count "Done\n" = (samplePackage false).Stickers.length -
        ((samplePackage false).Stickers.filter
          (fun s => ((sampleEnv false).download .static s.Id).fails)).length ∧
      (staticPass (sampleEnv false) (samplePackage false) (World.start emptyFolder)).stderr.length =
        (World.start emptyFolder).stderr.length + ((samplePackage false).Stickers.filter
          (fun s => ((sampleEnv false).download .static s.Id).fails)).length ∧
      (staticPass (sampleEnv false) (samplePackage false)
          (World.start emptyFolder)).dirContent .PNG =
        ((samplePackage false).Stickers.filter
          (fun s => ((sampleEnv false).download .static s.Id).createOk)).map
          (fun s => (s.Id, ((sampleEnv false).download .static s.Id).written)) :=
  ⟨by decide, rfl,
    C7_static_pass (sampleEnv false) (samplePackage false) (World.start emptyFolder)
      (by decide) rfl⟩

/-- C7, counterexample. In the package 42 with N = 2 stickers the download of
sticker 1 fails in transport, after `os.Create` has created `PNG/1.png`, and
that of sticker 2 succeeds: K = 1, one `Error` and one `Done` are printed, but
the directory holds 2 files, not N-K = 1: the empty file of sticker 1 and the
file of sticker 2 with the body of its response. -/
theorem C7_counterexample :
    ((samplePackage false).Stickers.map Sticker.Id).Nodup ∧
    (World.start emptyFolder).dirContent .PNG = [] ∧
    (samplePackage false).Stickers.map
      (fun s => (Download ((sampleEnv false).download .static s.Id)).err) =
      [some .get, none] ∧
    (staticPass (sampleEnv false) (samplePackage false) (World.start emptyFolder)).stdout =
      ["[PNG] 1 ... ", "Error\n", "[PNG] 2 ... ", "Done\n"] ∧
    (staticPass (sampleEnv false) (samplePackage false) (World.start emptyFolder)).dirContent .PNG =
      [(1, []), (2, encodeContainer sampleChunks)] := by
  decide

end LineSticker
